import Mathlib

/-!
# validation/util.go: rule-tag parsing and dispatch

A shallow embedding of `util.go` of the `validation` package: the registry
`funcs` and its `init`, `Funcs.Call`, `getValidFuncs`, `parseFunc`, `numIn`,
`trim`, `magic` and `mergeParam`, and theorems about them.

Conventions of the embedding.

* A Go `string` is a `Str`, a list of characters: the texts are taken to be
  valid UTF-8, and the separators the code looks for (`(`, `)`, `,`, `;`) are
  ASCII, so that byte offsets and character offsets cut a text at the same
  places.
* A Go function with results `(x T, err error)` returns the pair
  `(x, err)` with `err : Option Err` (`none` is the nil error); where a panic
  can be raised the pair is wrapped in `Go`, which adds the outcome "a panic
  leaves the function".
* A rule name that is registered is a method name of `*Validation`, a Go
  identifier; theorems that need it assume `Funcs.MethodNames` of the registry.
* The method set of `*Validation` is not part of `util.go`: `init` takes the
  methods as a parameter, and the functions that read the registry take it
  as `Env.funcs`; the verdict of `regexp.Compile` is the parameter
  `Env.regexpError`.
-/

namespace Validation

/-- Text: a Go string, as its sequence of characters. -/
abbrev Str := List Char

/-! ## Library functions used by the code -/

/-- Go `unicode.IsSpace`: the Unicode White_Space code points. -/
def isSpace (c : Char) : Bool :=
  let n := c.toNat
  (9 ≤ n && n ≤ 13) || n == 32 || n == 0x85 || n == 0xA0 || n == 0x1680 ||
    (0x2000 ≤ n && n ≤ 0x200A) || n == 0x2028 || n == 0x2029 || n == 0x202F ||
    n == 0x205F || n == 0x3000

/-- Go `strings.TrimSpace`: the text without its leading and trailing white space. -/
def TrimSpace (s : Str) : Str :=
  List.rdropWhile isSpace (List.dropWhile isSpace s)

/-- Go `strings.Index(s, sep)` for a one-character `sep`: the offset of its first
occurrence, or `-1`. -/
def Index (s : Str) (c : Char) : Int :=
  if c ∈ s then (s.indexOf c : Int) else -1

/-- Go `strings.Split(s, sep)` for a one-character `sep`: the pieces between the
occurrences of `sep`, one more than there are occurrences (so `[""]` for `""`). -/
def Split : Str → Char → List Str
  | [], _ => [[]]
  | c :: cs, sep =>
    if c = sep then [] :: Split cs sep
    else match Split cs sep with
      | [] => [[c]]
      | p :: ps => (c :: p) :: ps

/-- The slice expression `s[lo:hi]`: `none` when the bounds are out of range (Go panics). -/
def slice (s : Str) (lo hi : Int) : Option Str :=
  if 0 ≤ lo ∧ lo ≤ hi ∧ hi ≤ (s.length : Int) then
    some ((s.take hi.toNat).drop lo.toNat)
  else none

/-- The two causes of a `*strconv.NumError`. -/
inductive NumErrKind where
  | ErrSyntax
  | ErrRange
  deriving DecidableEq, Repr

/-- Faults raised by the Go runtime; each is a `runtime.Error`, hence an `error`. -/
inductive RuntimeFault where
  | sliceBounds
  | indexRange
  | typeAssertion
  deriving DecidableEq, Repr

/-- Go `error` values that occur in the package. -/
inductive Err where
  /-- `fmt.Errorf("doesn't exsits %s valid function", name)` -/
  | notFound (name : Str)
  /-- `fmt.Errorf("%s require %d parameters", name, num)` -/
  | require (name : Str) (num : Int)
  /-- `fmt.Errorf("invalid valid function")` -/
  | invalidFunc
  /-- `fmt.Errorf("does not support %s", what)` -/
  | unsupported (what : Str)
  /-- `fmt.Errorf("%s does not exist", name)` -/
  | notExist (name : Str)
  /-- `fmt.Errorf("The number of params is not adapted")` -/
  | notAdapted
  /-- `&strconv.NumError{Func: "Atoi", Num: num, Err: kind}` -/
  | numError (num : Str) (kind : NumErrKind)
  /-- The `*syntax.Error` of `regexp.Compile` for the expression `expr`. -/
  | regexpError (code : Str) (expr : Str)
  /-- A `runtime.Error`. -/
  | runtime (fault : RuntimeFault)
  /-- Any other error value, e.g. one a validator panics with. -/
  | other (msg : Str)
  deriving DecidableEq, Repr

/-- Go `reflect.Kind`. -/
inductive Kind where
  | Invalid | Bool | Int | Int8 | Int16 | Int32 | Int64
  | Uint | Uint8 | Uint16 | Uint32 | Uint64 | Uintptr
  | Float32 | Float64 | Complex64 | Complex128
  | Array | Chan | Func | Interface | Map | Ptr | Slice | String | Struct | UnsafePointer
  deriving DecidableEq, Repr

/-- Go `Kind.String()` (the name `Kind.String` is taken by the kind of strings). -/
def Kind.text : Kind → Str
  | .Invalid => "invalid".toList | .Bool => "bool".toList | .Int => "int".toList
  | .Int8 => "int8".toList | .Int16 => "int16".toList | .Int32 => "int32".toList
  | .Int64 => "int64".toList | .Uint => "uint".toList | .Uint8 => "uint8".toList
  | .Uint16 => "uint16".toList | .Uint32 => "uint32".toList | .Uint64 => "uint64".toList
  | .Uintptr => "uintptr".toList | .Float32 => "float32".toList
  | .Float64 => "float64".toList | .Complex64 => "complex64".toList
  | .Complex128 => "complex128".toList | .Array => "array".toList | .Chan => "chan".toList
  | .Func => "func".toList | .Interface => "interface".toList | .Map => "map".toList
  | .Ptr => "ptr".toList | .Slice => "slice".toList | .String => "string".toList
  | .Struct => "struct".toList | .UnsafePointer => "unsafe.Pointer".toList

/-- Go `reflect.Type`, as far as `magic` observes it: a pointer type with its element
type, or any other type with its kind and its `String()`. -/
inductive RType where
  | named (kind : Kind) (str : Str)
  | ptr (elem : RType)
  deriving DecidableEq, Repr

/-- Go `Type.Kind()`. -/
def RType.Kind : RType → Kind
  | .named k _ => k
  | .ptr _ => .Ptr

/-- Go `Type.String()`. -/
def RType.String : RType → Str
  | .named _ s => s
  | .ptr e => '*' :: e.String

/-- Go values held in an `interface{}`. -/
inductive Value where
  /-- The nil interface. -/
  | nil
  | int (n : Int)
  | str (s : Str)
  | bool (b : Bool)
  /-- The `*regexp.Regexp` that `regexp.Compile(expr)` returns. -/
  | regexp (expr : Str)
  /-- The pointer `(*regexp.Regexp)(nil)` that `regexp.Compile` returns with an error. -/
  | nilRegexp
  /-- A pointer to a value of the struct type `typ`, e.g. the `*Validation` context. -/
  | ptr (typ : Str) (addr : Nat)
  deriving DecidableEq, Repr

/-- The non-nil value a panic carries: an `error`, or a value that is not one (a
string, say). -/
inductive PanicValue where
  | error (e : Err)
  | value (v : Value)
  deriving DecidableEq, Repr

/-- Outcome of a Go call: it returns `a`, or a panic with value `p` leaves it. -/
inductive Go (α : Type) where
  | ret (a : α)
  | panic (p : PanicValue)
  deriving DecidableEq, Repr

/-- The deferred `if r := recover(); r != nil { err = r.(error) }`. A panic that
carries an error makes the function return with the named results as they stood
(`held`) and `err` set to it; for any other panic value the assertion `r.(error)`
itself panics, and that panic leaves the function. -/
def deferRecover {α : Type} (held : α) : Go (α × Option Err) → Go (α × Option Err)
  | .ret r => .ret r
  | .panic (.error e) => .ret (held, some e)
  | .panic (.value _) => .panic (.error (.runtime .typeAssertion))

/-- Value of `1 << (strconv.IntSize - 1)` on a 64-bit platform. -/
def intCutoff : Nat := 2 ^ 63

/-- Largest value of `uint64`. -/
def maxUint64 : Nat := 2 ^ 64 - 1

/-- The loop of `strconv.ParseUint(s, 10, 64)` over the bytes still to read, `n` being
the value read so far. A byte that is no decimal digit gives `ErrSyntax`; a digit at
which `n * 10` or `n * 10 + d` no longer fits `uint64` gives `ErrRange` with the largest
value, whatever follows it. -/
def parseUintLoop : Str → Nat → Nat × Option NumErrKind
  | [], n => (n, none)
  | c :: cs, n =>
    if '0' ≤ c ∧ c ≤ '9' then
      if maxUint64 / 10 + 1 ≤ n then (maxUint64, some .ErrRange)
      else if maxUint64 < n * 10 + (c.toNat - 48) then (maxUint64, some .ErrRange)
      else parseUintLoop cs (n * 10 + (c.toNat - 48))
    else (0, some .ErrSyntax)

/-- Go `strconv.ParseUint(s, 10, 64)`. -/
def ParseUint (s : Str) : Nat × Option NumErrKind :=
  if s = [] then (0, some .ErrSyntax) else parseUintLoop s 0

/-- Go `strconv.Atoi` on a 64-bit platform, as `strconv.ParseInt(s, 10, 0)` computes it
(the fast path of `Atoi` for short texts gives the same results): an optional sign, then
`ParseUint`; a syntax error is returned with the value 0, and a value out of the `int`
range is clamped and reported as `ErrRange`. -/
def Atoi (s : Str) : Int × Option Err :=
  let neg := s.head? = some '-'
  let body := if s.head? = some '-' ∨ s.head? = some '+' then s.tail else s
  match ParseUint body with
  | (_, some .ErrSyntax) => (0, some (.numError s .ErrSyntax))
  | (un, _) =>
    if ¬ neg ∧ intCutoff ≤ un then ((intCutoff : Int) - 1, some (.numError s .ErrRange))
    else if neg ∧ intCutoff < un then (-(intCutoff : Int), some (.numError s .ErrRange))
    else if neg then (-(un : Int), none)
    else ((un : Int), none)

/-! ## The package -/

/-- A `reflect.Value` of a function, as the code observes it: the parameter types
`Type().In(i)` (for a method value the receiver comes first) and what `Call(in)` does. -/
structure FuncValue where
  In : List RType
  Call : List Value → Go (List Value)

/-- Source `type Funcs map[string]reflect.Value`; the first binding of a key counts. -/
abbrev Funcs := List (Str × FuncValue)

/-- The map index expression `f[name]` with its `ok` flag. -/
def Funcs.get? : Funcs → Str → Option FuncValue
  | [], _ => none
  | (k, v) :: rest, name => if k = name then some v else Funcs.get? rest name

/-- What the package reads from outside `util.go`: the registry `funcs` that `init`
built from the methods of `*Validation`, and `regexp.Compile`, given by the error
code it reports for an expression (`none` when the expression compiles). -/
structure Env where
  funcs : Funcs
  regexpError : Str → Option Str

/-- Source `type ValidFunc struct { Name string; Params []interface{} }`. -/
structure ValidFunc where
  Name : Str
  Params : List Value
  deriving DecidableEq, Repr

/-- The zero `ValidFunc`, which the named result `v` holds until it is assigned. -/
def ValidFunc.zero : ValidFunc := ⟨[], []⟩

/-- The invocation at the end of `Funcs.Call`: `result = f[name].Call(in); return`, with
`in[k] = reflect.ValueOf(params[k])`. -/
def Funcs.invoke (fn : FuncValue) (params : List Value) : Go (List Value × Option Err) :=
  match fn.Call params with
  | .ret result => .ret (result, none)
  | .panic p => .panic p

/-- Source `Funcs.Call`. -/
def Funcs.Call (f : Funcs) (name : Str) (params : List Value) :
    Go (List Value × Option Err) :=
  deferRecover []
    (match f.get? name with
     | none => .ret ([], some (.notExist name))
     | some fn =>
       if params.length ≠ fn.In.length then .ret ([], some .notAdapted)
       else Funcs.invoke fn params)

/-- Source `numIn`. -/
def numIn (E : Env) (name : Str) : Int × Option Err :=
  match E.funcs.get? name with
  | none => (0, some (.notFound name))
  | some fn => ((fn.In.length : Int) - 3, none)

/-- Source `magic`. -/
def magic (E : Env) (t : RType) (s : Str) : Value × Option Err :=
  match t with
  | .named .Int _ => ((.int (Atoi s).1), (Atoi s).2)
  | .named .String _ => (.str s, none)
  | .ptr e =>
    if e.String ≠ "regexp.Regexp".toList then (.nil, some (.unsupported e.String))
    else match E.regexpError s with
      | none => (.regexp s, none)
      | some code => (.nilRegexp, some (.regexpError code s))
  | .named k _ => (.nil, some (.unsupported k.text))

/-- The loop of `trim`, at index `i` with `rest = s[i:]`: `In(i+2)` panics when the
index is out of range. -/
def trimLoop (E : Env) (fn : FuncValue) :
    List Str → Nat → List Value → Go (List Value × Option Err)
  | [], _, ts => .ret (ts, none)
  | si :: rest, i, ts =>
    match fn.In[i + 2]? with
    | none => .panic (.error (.runtime .indexRange))
    | some t =>
      match magic E t (TrimSpace si) with
      | (_, some err) => .ret (ts, some err)
      | (param, none) => trimLoop E fn rest (i + 1) (ts.set i param)

/-- Source `trim`. -/
def trim (E : Env) (name : Str) (s : List Str) : Go (List Value × Option Err) :=
  let ts := List.replicate s.length Value.nil
  match E.funcs.get? name with
  | none => .ret (ts, some (.notFound name))
  | some fn =>
    match trimLoop E fn s 0 ts with
    | .ret (ts, none) => .ret (ts ++ [.str name], none)
    | r => r

/-- The body of `parseFunc`, before its deferred recovery. -/
def parseFuncBody (E : Env) (vfunc : Str) : Go (ValidFunc × Option Err) :=
  let vfunc := TrimSpace vfunc
  let start := Index vfunc '('
  if start = -1 then
    match numIn E vfunc with
    | (_, some err) => .ret (ValidFunc.zero, some err)
    | (num, none) =>
      if num ≠ 0 then .ret (ValidFunc.zero, some (.require vfunc num))
      else .ret (⟨vfunc, [.str vfunc]⟩, none)
  else
    let stop := Index vfunc ')'
    if stop = -1 then .ret (ValidFunc.zero, some .invalidFunc)
    else
      let name := TrimSpace (vfunc.take start.toNat)
      match numIn E name with
      | (_, some err) => .ret (ValidFunc.zero, some err)
      | (num, none) =>
        match slice vfunc (start + 1) stop with
        | none => .panic (.error (.runtime .sliceBounds))
        | some args =>
          let params := Split args ','
          if num ≠ (params.length : Int) then .ret (ValidFunc.zero, some (.require name num))
          else match trim E name params with
            | .panic p => .panic p
            | .ret (_, some err) => .ret (ValidFunc.zero, some err)
            | .ret (tParams, none) => .ret (⟨name, tParams⟩, none)

/-- Source `parseFunc`. -/
def parseFunc (E : Env) (vfunc : Str) : Go (ValidFunc × Option Err) :=
  deferRecover ValidFunc.zero (parseFuncBody E vfunc)

/-- The loop of `getValidFuncs` over the tokens still to parse. -/
def getValidFuncsLoop (E : Env) :
    List Str → List ValidFunc → Go (List ValidFunc × Option Err)
  | [], vfs => .ret (vfs, none)
  | vfunc :: rest, vfs =>
    match parseFunc E vfunc with
    | .panic p => .panic p
    | .ret (_, some err) => .ret (vfs, some err)
    | .ret (vf, none) => getValidFuncsLoop E rest (vfs ++ [vf])

/-- Source `getValidFuncs`, on the text `tag = f.Tag.Get(VALIDTAG)`. -/
def getValidFuncs (E : Env) (tag : Str) : Go (List ValidFunc × Option Err) :=
  if tag.length = 0 then .ret ([], none)
  else getValidFuncsLoop E (Split tag ';') []

/-- Source `mergeParam`. -/
def mergeParam (v : Value) (obj : Value) (params : List Value) : List Value :=
  [v, obj] ++ params

/-- Source `unFuncs`: the names that are not validation functions. -/
def unFuncs : List (Str × Bool) :=
  [("Clear".toList, true), ("HasErrors".toList, true), ("ErrorMap".toList, true),
   ("Error".toList, true), ("apply".toList, true), ("Check".toList, true),
   ("Valid".toList, true)]

/-- The map read `unFuncs[name]`: `false` for a name that is not a key. -/
def unFuncsAt (name : Str) : Bool :=
  (unFuncs.lookup name).getD false

/-- A `reflect.Method` of `*Validation`, as `init` reads it: `m.Name` and `m.Func`. -/
structure Method where
  Name : Str
  Func : FuncValue

/-- The map assignment `f[name] = fn`. -/
def Funcs.set (f : Funcs) (name : Str) (fn : FuncValue) : Funcs :=
  (name, fn) :: f

/-- The loop of `init` over the methods `t.Method(i)` still to visit. -/
def initLoop : List Method → Funcs → Funcs
  | [], funcs => funcs
  | m :: rest, funcs =>
    if !unFuncsAt m.Name then initLoop rest (funcs.set m.Name m.Func)
    else initLoop rest funcs

/-- Source `init`, on the methods `t.Method(0), ..., t.Method(t.NumMethod()-1)` which
`reflect` enumerates for `*Validation`; the registry starts as `make(Funcs)`. -/
def init (methods : List Method) : Funcs :=
  initLoop methods []

/-! ## Method names and an example registry -/

/-- Characters of a Go identifier, generously: the ASCII letters and digits, `_`, and
every non-ASCII character that is not white space (Go allows the Unicode letters and
digits among them). -/
def identChar (c : Char) : Bool :=
  let n := c.toNat
  (48 ≤ n && n ≤ 57) || (65 ≤ n && n ≤ 90) || n == 95 || (97 ≤ n && n ≤ 122) ||
    (128 ≤ n && !isSpace c)

/-- A non-empty text of identifier characters, as every method name is. -/
def isIdentifier (s : Str) : Bool :=
  !s.isEmpty && s.all identChar

/-- The keys of the registry are method names: `init` stores `m.Func` under `m.Name`
for methods `m` of `*Validation`. -/
def Funcs.MethodNames (f : Funcs) : Prop :=
  ∀ p ∈ f, isIdentifier p.1 = true

instance (f : Funcs) : Decidable f.MethodNames := by
  unfold Funcs.MethodNames
  infer_instance

/-- All characters of the text are white space. -/
def allSpace (s : Str) : Prop :=
  ∀ c ∈ s, isSpace c = true

instance (s : Str) : Decidable (allSpace s) := by
  unfold allSpace
  infer_instance

/-- The type `*Validation` of the receiver. -/
def tValidation : RType := .ptr (.named .Struct "validation.Validation".toList)

/-- The type `interface{}` of the value under validation. -/
def tEmptyInterface : RType := .named .Interface "interface \x7b\x7d".toList

/-- The type `int`. -/
def tInt : RType := .named .Int "int".toList

/-- The type `string`. -/
def tString : RType := .named .String "string".toList

/-- The type `*regexp.Regexp`. -/
def tRegexp : RType := .ptr (.named .Struct "regexp.Regexp".toList)

/-- Dynamic type of a value (`reflect.TypeOf`); the nil interface has none. -/
def Value.typeOf : Value → Option RType
  | .nil => none
  | .int _ => some tInt
  | .str _ => some tString
  | .bool _ => some (.named .Bool "bool".toList)
  | .regexp _ => some tRegexp
  | .nilRegexp => some tRegexp
  | .ptr typ _ => some (.ptr (.named .Struct typ))

/-- Assignability as the example validators need it: to the same type or to `interface{}`. -/
def assignable (x t : RType) : Bool :=
  x == t || t == tEmptyInterface

/-- Go `reflect.Value.Call` on a function with parameter types `In` and behaviour
`body`: it panics with a string when an argument is the zero `Value` or is not
assignable to its parameter type, and runs the function otherwise. -/
def reflectCall (In : List RType) (body : List Value → Go (List Value))
    (args : List Value) : Go (List Value) :=
  if args.length < In.length then
    .panic (.value (.str "reflect: Call with too few input arguments".toList))
  else if In.length < args.length then
    .panic (.value (.str "reflect: Call with too many input arguments".toList))
  else if args.any (fun a => a.typeOf.isNone) then
    .panic (.value (.str "reflect: Call using zero Value argument".toList))
  else
    match (List.zip args In).find? (fun at_ => !(at_.1.typeOf.any (assignable · at_.2))) with
    | some (a, t) =>
      .panic (.value (.str ("reflect: Call using ".toList ++
        (a.typeOf.map RType.String).getD [] ++ " as type ".toList ++ t.String)))
    | none => body args

/-- A method value `(*Validation).M` with user parameters `user` (after the receiver
and `obj`, before the trailing `key string`) and behaviour `body`. -/
def method (user : List RType) (body : List Value → Go (List Value)) : FuncValue :=
  ⟨[tValidation, tEmptyInterface] ++ user ++ [tString],
    reflectCall ([tValidation, tEmptyInterface] ++ user ++ [tString]) body⟩

/-- The `*ValidationResult` an example validator returns. -/
def passed : List Value → Go (List Value) :=
  fun _ => .ret [.ptr "validation.ValidationResult".toList 1]

/-- An example registry: `Required(obj, key)`, `MaxLen(obj, n int, key)`,
`Range(obj, min, max int, key)`, `Match(obj, re *regexp.Regexp, key)`,
`Prefix(obj, p string, key)`, and `Strict(obj, key)`, whose validator panics with a
string. -/
def exampleFuncs : Funcs :=
  [("Required".toList, method [] passed),
   ("MaxLen".toList, method [tInt] passed),
   ("Range".toList, method [tInt, tInt] passed),
   ("Match".toList, method [tRegexp] passed),
   ("Prefix".toList, method [tString] passed),
   ("Strict".toList, method [] (fun _ => .panic (.value (.str "not supported".toList))))]

/-- An example environment: the example registry, and a `regexp.Compile` that rejects
exactly the expression `[`. -/
def exampleEnv : Env :=
  ⟨exampleFuncs, fun s => if s = "[".toList then some "missing closing ]".toList else none⟩

/-- The `*Validation` context of the examples. -/
def exampleCtx : Value := .ptr "validation.Validation".toList 0

/-! ## Notions the claims are stated with -/

/-- The rule name of a token: the whole trimmed token when it has no `(`, otherwise
the trimmed text before its first `(`. -/
def ruleName (tok : Str) : Str :=
  if '(' ∈ TrimSpace tok then TrimSpace ((TrimSpace tok).takeWhile (· ≠ '('))
  else TrimSpace tok

/-- The text of a token between its first `(` and the first `)` after it. -/
def argText (tok : Str) : Str :=
  (((TrimSpace tok).dropWhile (· ≠ '(')).drop 1).takeWhile (· ≠ ')')

/-- The number of raw arguments a token supplies: `0` without a `(`, otherwise the
number of pieces of `argText` between commas. -/
def suppliedCount (tok : Str) : Nat :=
  if '(' ∈ TrimSpace tok then (Split (argText tok) ',').length else 0

/-- Decimal text of an integer: the digits of its absolute value, after a `-` when
it is negative. -/
def decimalText (n : Int) : Str :=
  if n < 0 then '-' :: Nat.toDigits 10 n.natAbs else Nat.toDigits 10 n.natAbs

/-- The character is a decimal digit. -/
def isDigit (c : Char) : Bool :=
  decide ('0' ≤ c ∧ c ≤ '9')

/-- The text is an optionally signed non-empty run of decimal digits. -/
def isDecimal (s : Str) : Bool :=
  let digits := if s.head? = some '-' ∨ s.head? = some '+' then s.tail else s
  !digits.isEmpty && digits.all isDigit

/-- The text after its sign, if it starts with `-` or `+`. -/
def unsignedPart (s : Str) : Str :=
  if s.head? = some '-' ∨ s.head? = some '+' then s.tail else s

/-- The number that the digits of `s` write after the number `acc`. -/
def digitsValue : Str → Nat → Nat
  | [], acc => acc
  | c :: cs, acc => digitsValue cs (acc * 10 + (c.toNat - 48))

/-- The value that `strconv.Atoi` returns with `ErrRange` for the text `s`: the least
`int` after a `-`, the largest otherwise. -/
def clampedInt (s : Str) : Int :=
  if s.head? = some '-' then -(2 ^ 63 : Int) else 2 ^ 63 - 1

/-- A defined type `type Age int`: of kind `Int`, and not the type `int`. -/
def tAge : RType := .named .Int "validation.Age".toList

/-- An environment whose one rule `MinAge(obj, min Age, key)` has a parameter of the
defined type `Age`. -/
def ageEnv : Env :=
  ⟨[("MinAge".toList, method [tAge] passed)], fun _ => none⟩

/-- The integers of the machine `int` type (64 bits). -/
def inIntRange (n : Int) : Prop :=
  -(2 ^ 63 : Int) ≤ n ∧ n ≤ 2 ^ 63 - 1

instance (n : Int) : Decidable (inIntRange n) := by
  unfold inIntRange
  infer_instance

/-- The value suits a parameter of type `t`: an integer for a type of kind `Int`, a
string for a type of kind `String`, a compiled pattern for a pointer type. -/
def Value.fits (v : Value) (t : RType) : Prop :=
  match t with
  | .named .Int _ => ∃ n, v = .int n
  | .named .String _ => ∃ s, v = .str s
  | .ptr _ => ∃ expr, v = .regexp expr
  | .named _ _ => False

/-- A method set for the examples: two reserved methods and three validators. -/
def exampleMethods : List Method :=
  [⟨"Clear".toList, method [] passed⟩, ⟨"HasErrors".toList, method [] passed⟩,
   ⟨"MaxLen".toList, method [tInt] passed⟩, ⟨"Match".toList, method [tRegexp] passed⟩,
   ⟨"Required".toList, method [] passed⟩]

/-! ## Lemmas -/

theorem identChar_not_space {c : Char} (h : identChar c = true) : isSpace c = false := by
  simp only [identChar, isSpace, Bool.or_eq_true, Bool.and_eq_true, decide_eq_true_eq,
    beq_iff_eq, Bool.not_eq_true', Bool.or_eq_false_iff, Bool.and_eq_false_iff,
    decide_eq_false_iff_not, beq_eq_false_iff_ne] at h ⊢
  omega

theorem identChar_toNat {c : Char} (h : identChar c = true) : 48 ≤ c.toNat := by
  simp only [identChar, isSpace, Bool.or_eq_true, Bool.and_eq_true, decide_eq_true_eq,
    beq_iff_eq, Bool.not_eq_true', Bool.or_eq_false_iff, Bool.and_eq_false_iff,
    decide_eq_false_iff_not, beq_eq_false_iff_ne] at h ⊢
  omega

theorem rdropWhile_append_of_pos {p : Char → Bool} (y post : Str)
    (h : ∀ c ∈ post, p c = true) : List.rdropWhile p (y ++ post) = List.rdropWhile p y := by
  unfold List.rdropWhile
  rw [List.reverse_append, List.dropWhile_append_of_pos]
  intro c hc
  exact h c (List.mem_reverse.mp hc)

theorem TrimSpace_of_all_space (s : Str) (h : ∀ c ∈ s, isSpace c = true) : TrimSpace s = [] := by
  unfold TrimSpace
  rw [List.dropWhile_eq_nil_iff.mpr h]
  rfl

theorem TrimSpace_pad (pre x post : Str) (hpre : ∀ c ∈ pre, isSpace c = true)
    (hpost : ∀ c ∈ post, isSpace c = true) :
    TrimSpace (pre ++ x ++ post) = TrimSpace x := by
  unfold TrimSpace
  rw [List.append_assoc, List.dropWhile_append_of_pos hpre, List.dropWhile_append]
  by_cases hx : (List.dropWhile isSpace x).isEmpty = true
  · rw [if_pos hx, List.dropWhile_eq_nil_iff.mpr hpost]
    rw [List.isEmpty_iff] at hx
    rw [hx]
  · rw [if_neg hx, rdropWhile_append_of_pos _ _ hpost]

theorem TrimSpace_eq_self (x : Str) (h1 : ∀ c, x.head? = some c → isSpace c = false)
    (h2 : ∀ c, x.getLast? = some c → isSpace c = false) : TrimSpace x = x := by
  unfold TrimSpace
  have hd : List.dropWhile isSpace x = x := by
    cases x with
    | nil => rfl
    | cons a t =>
      have := h1 a rfl
      simp [List.dropWhile_cons, this]
  rw [hd, List.rdropWhile_eq_self_iff]
  intro hl
  have := h2 (x.getLast hl) (List.getLast?_eq_getLast _ hl)
  simp [this]

theorem mem_dropWhile_of_not {p : Char → Bool} {c : Char} (hc : p c = false) :
    ∀ s : Str, c ∈ s → c ∈ List.dropWhile p s
  | [], h => by simp at h
  | a :: t, h => by
    rw [List.dropWhile_cons]
    split
    · rename_i hpa
      rcases List.mem_cons.mp h with rfl | h'
      · rw [hc] at hpa; cases hpa
      · exact mem_dropWhile_of_not hc t h'
    · exact h

theorem mem_TrimSpace_iff {c : Char} (hc : isSpace c = false) (s : Str) :
    c ∈ TrimSpace s ↔ c ∈ s := by
  constructor
  · intro h
    exact (List.dropWhile_subset _) ((List.rdropWhile_prefix _ _).subset h)
  · intro h
    unfold TrimSpace List.rdropWhile
    rw [List.mem_reverse]
    apply mem_dropWhile_of_not hc
    rw [List.mem_reverse]
    exact mem_dropWhile_of_not hc s h

theorem Index_of_not_mem {s : Str} {c : Char} (h : c ∉ s) : Index s c = -1 := by
  unfold Index; rw [if_neg h]

theorem Index_of_mem {s : Str} {c : Char} (h : c ∈ s) : Index s c = (s.indexOf c : Int) := by
  unfold Index; rw [if_pos h]

theorem Index_eq_neg_one_iff {s : Str} {c : Char} : Index s c = -1 ↔ c ∉ s := by
  constructor
  · intro h hc
    rw [Index_of_mem hc] at h
    omega
  · exact Index_of_not_mem

theorem indexOf_append_cons (a b : Str) (c : Char) (h : c ∉ a) :
    (a ++ c :: b).indexOf c = a.length := by
  induction a with
  | nil => simp [List.indexOf_cons]
  | cons x t ih =>
    have hx : x ≠ c := fun e => h (by simp [e])
    have ht : c ∉ t := fun e => h (by simp [e])
    simp [List.indexOf_cons, hx, ih ht]

theorem Index_append_cons (a b : Str) (c : Char) (h : c ∉ a) :
    Index (a ++ c :: b) c = (a.length : Int) := by
  rw [Index_of_mem (by simp), indexOf_append_cons a b c h]

theorem slice_middle (a b e : Str) :
    slice (a ++ b ++ e) (a.length : Int) ((a.length : Int) + (b.length : Int)) = some b := by
  unfold slice
  have h : 0 ≤ (a.length : Int) ∧ (a.length : Int) ≤ (a.length : Int) + (b.length : Int) ∧
      (a.length : Int) + (b.length : Int) ≤ ((a ++ b ++ e).length : Int) := by
    simp only [List.length_append, Nat.cast_add]; omega
  rw [if_pos h]
  have e1 : ((a.length : Int) + (b.length : Int)).toNat = (a ++ b).length := by
    simp only [List.length_append]; omega
  have e2 : ((a.length : Int)).toNat = a.length := by omega
  rw [e1, e2, List.take_left, List.drop_left]

theorem Split_of_not_mem (p : Str) (sep : Char) (h : sep ∉ p) : Split p sep = [p] := by
  induction p with
  | nil => rfl
  | cons x t ih =>
    have hx : x ≠ sep := fun e => h (by simp [e])
    have ht : sep ∉ t := fun e => h (by simp [e])
    simp [Split, hx, ih ht]

theorem Split_append_cons (p rest : Str) (sep : Char) (h : sep ∉ p) :
    Split (p ++ sep :: rest) sep = p :: Split rest sep := by
  induction p with
  | nil => simp [Split]
  | cons x t ih =>
    have hx : x ≠ sep := fun e => h (by simp [e])
    have ht : sep ∉ t := fun e => h (by simp [e])
    simp [Split, hx, ih ht]

theorem Split_ne_nil (s : Str) (sep : Char) : Split s sep ≠ [] := by
  induction s with
  | nil => simp [Split]
  | cons x t ih =>
    unfold Split
    split
    · simp
    · split <;> simp

theorem Split_intercalate (p : Str) (ps : List Str) (sep : Char)
    (h : ∀ q ∈ p :: ps, sep ∉ q) :
    Split (List.intercalate [sep] (p :: ps)) sep = p :: ps := by
  induction ps generalizing p with
  | nil =>
    simpa [List.intercalate] using Split_of_not_mem p sep (h p (by simp))
  | cons q qs ih =>
    have hp : sep ∉ p := h p (by simp)
    have hq : ∀ r ∈ q :: qs, sep ∉ r := fun r hr => h r (List.mem_cons_of_mem _ hr)
    have e : List.intercalate [sep] (p :: q :: qs) = p ++ sep :: List.intercalate [sep] (q :: qs) := by
      simp [List.intercalate, List.intersperse]
    rw [e, Split_append_cons p _ sep hp, ih q hq]

theorem Funcs.mem_of_get? {f : Funcs} {name : Str} {fn : FuncValue}
    (h : f.get? name = some fn) : (name, fn) ∈ f := by
  induction f with
  | nil => simp [Funcs.get?] at h
  | cons kv rest ih =>
    obtain ⟨k, v⟩ := kv
    unfold Funcs.get? at h
    split at h
    · rename_i hk
      simp only [Option.some.injEq] at h
      subst hk; subst h
      exact List.mem_cons_self _ _
    · exact List.mem_cons_of_mem _ (ih h)

theorem isIdentifier_ne_nil {s : Str} (h : isIdentifier s = true) : s ≠ [] := by
  intro e
  subst e
  simp [isIdentifier] at h

theorem isIdentifier_identChar {s : Str} (h : isIdentifier s = true) :
    ∀ c ∈ s, identChar c = true := by
  simp only [isIdentifier, Bool.and_eq_true, List.all_eq_true] at h
  exact h.2

theorem identChar_ne {c d : Char} (h : identChar c = true) (hd : d.toNat < 48) : c ≠ d := by
  intro e
  subst e
  have := identChar_toNat h
  omega

theorem isIdentifier_not_mem {s : Str} (h : isIdentifier s = true) {d : Char}
    (hd : d.toNat < 48) : d ∉ s := by
  intro hm
  exact identChar_ne (isIdentifier_identChar h d hm) hd rfl

theorem TrimSpace_identifier {s : Str} (h : isIdentifier s = true) : TrimSpace s = s := by
  apply TrimSpace_eq_self
  · intro c hc
    exact identChar_not_space (isIdentifier_identChar h c (List.mem_of_mem_head? hc))
  · intro c hc
    exact identChar_not_space (isIdentifier_identChar h c (List.mem_of_getLast?_eq_some hc))

theorem registered_isIdentifier {f : Funcs} (hf : f.MethodNames) {name : Str} {fn : FuncValue}
    (h : f.get? name = some fn) : isIdentifier name = true :=
  hf (name, fn) (Funcs.mem_of_get? h)

theorem trimLoop_ok (E : Env) (fn : FuncValue) :
    ∀ (rest : List Str) (i : Nat) (done : List Value),
      done.length = i → i + 2 + rest.length ≤ fn.In.length →
      (∀ ta ∈ List.zip (fn.In.drop (i + 2)) rest, (magic E ta.1 (TrimSpace ta.2)).2 = none) →
      trimLoop E fn rest i (done ++ List.replicate rest.length Value.nil) =
        .ret (done ++ List.zipWith (fun t a => (magic E t (TrimSpace a)).1)
          (fn.In.drop (i + 2)) rest, none)
  | [], i, done, _, _, _ => by simp [trimLoop]
  | a :: rest, i, done, hd, hlen, hm => by
    have hi : i + 2 < fn.In.length := by
      simp only [List.length_cons] at hlen; omega
    have hdrop : fn.In.drop (i + 2) = fn.In[i + 2] :: fn.In.drop (i + 1 + 2) := by
      rw [show i + 1 + 2 = i + 2 + 1 by omega]
      exact List.drop_eq_getElem_cons hi
    have hget : fn.In[i + 2]? = some fn.In[i + 2] := List.getElem?_eq_getElem hi
    rw [hdrop] at hm
    rw [hdrop]
    generalize fn.In[i + 2] = t at hm hget ⊢
    have hmag : (magic E t (TrimSpace a)).2 = none :=
      hm (t, a) (by simp only [List.zip_cons_cons, List.mem_cons, true_or])
    have hpair : magic E t (TrimSpace a) = ((magic E t (TrimSpace a)).1, none) :=
      Prod.ext rfl hmag
    have hset : (done ++ List.replicate (a :: rest).length Value.nil).set i
        (magic E t (TrimSpace a)).1 =
        (done ++ [(magic E t (TrimSpace a)).1]) ++ List.replicate rest.length Value.nil := by
      subst hd
      simp [List.replicate_succ]
    have ih := trimLoop_ok E fn rest (i + 1) (done ++ [(magic E t (TrimSpace a)).1])
      (by simp [hd]) (by simp only [List.length_cons] at hlen; omega)
      (fun ta hta => hm ta (by
        simp only [List.zip_cons_cons, List.mem_cons]
        exact Or.inr hta))
    unfold trimLoop
    rw [hget]
    simp only []
    rw [hpair]
    simp only []
    rw [hset, ih]
    simp only [List.zipWith_cons_cons, List.append_assoc, List.singleton_append]

theorem trim_ok (E : Env) (name : Str) (fn : FuncValue) (args : List Str)
    (hfn : E.funcs.get? name = some fn) (hlen : args.length + 3 = fn.In.length)
    (hm : ∀ ta ∈ List.zip (fn.In.drop 2) args, (magic E ta.1 (TrimSpace ta.2)).2 = none) :
    trim E name args =
      .ret (List.zipWith (fun t a => (magic E t (TrimSpace a)).1) (fn.In.drop 2) args ++
        [.str name], none) := by
  have h := trimLoop_ok E fn args 0 [] rfl (by omega) (by simpa using hm)
  simp only [List.nil_append, Nat.zero_add] at h
  unfold trim
  simp only [hfn, h]

theorem parseFuncBody_paren (E : Env) (tok a b e : Str)
    (htok : TrimSpace tok = a ++ '(' :: b ++ ')' :: e)
    (ha1 : '(' ∉ a) (ha2 : ')' ∉ a) (hb : ')' ∉ b) :
    parseFuncBody E tok =
      match numIn E (TrimSpace a) with
      | (_, some err) => .ret (ValidFunc.zero, some err)
      | (num, none) =>
        if num ≠ ((Split b ',').length : Int) then
          .ret (ValidFunc.zero, some (.require (TrimSpace a) num))
        else match trim E (TrimSpace a) (Split b ',') with
          | .panic p => .panic p
          | .ret (_, some err) => .ret (ValidFunc.zero, some err)
          | .ret (tParams, none) => .ret (⟨TrimSpace a, tParams⟩, none) := by
  have hstart : Index (TrimSpace tok) '(' = (a.length : Int) := by
    rw [htok, List.append_assoc]
    exact Index_append_cons a _ '(' ha1
  have hstop : Index (TrimSpace tok) ')' = (a.length : Int) + 1 + (b.length : Int) := by
    have e1 : a ++ '(' :: b ++ ')' :: e = (a ++ '(' :: b) ++ ')' :: e := by simp
    have hn : ')' ∉ a ++ '(' :: b := by
      simp only [List.mem_append, List.mem_cons, not_or]
      exact ⟨ha2, by decide, hb⟩
    rw [htok, e1, Index_append_cons _ _ ')' hn]
    simp only [List.length_append, List.length_cons, Nat.cast_add, Nat.cast_one]
    omega
  have htake : (TrimSpace tok).take ((a.length : Int)).toNat = a := by
    rw [htok, List.append_assoc, Int.toNat_ofNat, List.take_left]
  have hslice : slice (TrimSpace tok) ((a.length : Int) + 1)
      ((a.length : Int) + 1 + (b.length : Int)) = some b := by
    have e1 : a ++ '(' :: b ++ ')' :: e = (a ++ ['(']) ++ b ++ (')' :: e) := by simp
    have := slice_middle (a ++ ['(']) b (')' :: e)
    rw [htok, e1]
    simpa using this
  unfold parseFuncBody
  simp only [hstart, hstop, htake, hslice]
  have h1 : ¬ ((a.length : Int) = -1) := by omega
  have h2 : ¬ ((a.length : Int) + 1 + (b.length : Int) = -1) := by omega
  rw [if_neg h1, if_neg h2]

theorem not_mem_of_allSpace {s : Str} (h : allSpace s) {d : Char} (hd : isSpace d = false) :
    d ∉ s := by
  intro hm
  rw [h d hm] at hd
  cases hd

theorem padded_map_TrimSpace :
    ∀ (args : List Str) (pads : List (Str × Str)),
      (∀ w ∈ pads, allSpace w.1 ∧ allSpace w.2) → args.length = pads.length →
      (List.zipWith (fun a w => w.1 ++ a ++ w.2) args pads).map TrimSpace = args.map TrimSpace
  | [], _, _, _ => by simp
  | a :: args, [], _, h => by simp at h
  | a :: args, w :: pads, hp, h => by
    have hw := hp w (List.mem_cons_self _ _)
    simp only [List.zipWith_cons_cons, List.map_cons, TrimSpace_pad w.1 a w.2 hw.1 hw.2]
    rw [padded_map_TrimSpace args pads (fun v hv => hp v (List.mem_cons_of_mem _ hv))
      (by simpa using h)]

theorem padded_not_mem (d : Char) (hd : isSpace d = false) :
    ∀ (args : List Str) (pads : List (Str × Str)),
      (∀ w ∈ pads, allSpace w.1 ∧ allSpace w.2) → (∀ a ∈ args, d ∉ a) →
      ∀ r ∈ List.zipWith (fun a w => w.1 ++ a ++ w.2) args pads, d ∉ r
  | [], _, _, _, r, hr => by simp at hr
  | a :: args, [], _, _, r, hr => by simp at hr
  | a :: args, w :: pads, hp, ha, r, hr => by
    simp only [List.zipWith_cons_cons, List.mem_cons] at hr
    rcases hr with rfl | hr
    · have hw := hp w (List.mem_cons_self _ _)
      simp only [List.mem_append, not_or]
      exact ⟨⟨not_mem_of_allSpace hw.1 hd, ha a (List.mem_cons_self _ _)⟩,
        not_mem_of_allSpace hw.2 hd⟩
    · exact padded_not_mem d hd args pads (fun v hv => hp v (List.mem_cons_of_mem _ hv))
        (fun b hb => ha b (List.mem_cons_of_mem _ hb)) r hr

theorem zip_map_TrimSpace_magic (E : Env) (ts : List RType) (xs : List Str) :
    (∀ ta ∈ List.zip ts xs, (magic E ta.1 (TrimSpace ta.2)).2 = none) ↔
      (∀ ta ∈ List.zip ts (xs.map TrimSpace), (magic E ta.1 ta.2).2 = none) := by
  induction ts generalizing xs with
  | nil => simp
  | cons t ts ih =>
    cases xs with
    | nil => simp
    | cons x xs =>
      simp only [List.zip_cons_cons, List.map_cons, List.forall_mem_cons, ih xs]

theorem zipWith_map_TrimSpace_magic (E : Env) (ts : List RType) (xs : List Str) :
    List.zipWith (fun t a => (magic E t (TrimSpace a)).1) ts xs =
      List.zipWith (fun t a => (magic E t a).1) ts (xs.map TrimSpace) := by
  induction ts generalizing xs with
  | nil => simp
  | cons t ts ih =>
    cases xs with
    | nil => simp
    | cons x xs => simp only [List.zipWith_cons_cons, List.map_cons, ih xs]

theorem not_mem_intercalate (d sep : Char) (hne : d ≠ sep) :
    ∀ raw : List Str, (∀ r ∈ raw, d ∉ r) → d ∉ List.intercalate [sep] raw
  | [], _ => by simp [List.intercalate]
  | [p], h => by simpa [List.intercalate] using h p (by simp)
  | p :: q :: qs, h => by
    have e : List.intercalate [sep] (p :: q :: qs) =
        p ++ sep :: List.intercalate [sep] (q :: qs) := by
      simp [List.intercalate, List.intersperse]
    rw [e]
    simp only [List.mem_append, List.mem_cons, not_or]
    exact ⟨h p (by simp), hne,
      not_mem_intercalate d sep hne (q :: qs) (fun r hr => h r (List.mem_cons_of_mem _ hr))⟩

theorem takeWhile_ne_append_cons (a b : Str) (c : Char) (h : c ∉ a) :
    (a ++ c :: b).takeWhile (· ≠ c) = a := by
  induction a with
  | nil => simp
  | cons x t ih =>
    have hx : x ≠ c := fun e => h (by simp [e])
    have ht : c ∉ t := fun e => h (by simp [e])
    simpa [List.takeWhile_cons, hx] using ih ht

theorem dropWhile_ne_append_cons (a b : Str) (c : Char) (h : c ∉ a) :
    (a ++ c :: b).dropWhile (· ≠ c) = c :: b := by
  induction a with
  | nil => simp
  | cons x t ih =>
    have hx : x ≠ c := fun e => h (by simp [e])
    have ht : c ∉ t := fun e => h (by simp [e])
    simpa [List.dropWhile_cons, hx] using ih ht

theorem numIn_of_get? {E : Env} {name : Str} {fn : FuncValue} (h : E.funcs.get? name = some fn) :
    numIn E name = ((fn.In.length : Int) - 3, none) := by
  unfold numIn; rw [h]

theorem numIn_of_none {E : Env} {name : Str} (h : E.funcs.get? name = none) :
    numIn E name = (0, some (.notFound name)) := by
  unfold numIn; rw [h]

theorem parseFuncBody_plain (E : Env) (tok : Str) (h : '(' ∉ TrimSpace tok) :
    parseFuncBody E tok =
      match numIn E (TrimSpace tok) with
      | (_, some err) => .ret (ValidFunc.zero, some err)
      | (num, none) =>
        if num ≠ 0 then .ret (ValidFunc.zero, some (.require (TrimSpace tok) num))
        else .ret (⟨TrimSpace tok, [.str (TrimSpace tok)]⟩, none) := by
  unfold parseFuncBody
  simp only [Index_of_not_mem h, if_true]

theorem ruleName_of_open (tok a b : Str) (h : TrimSpace tok = a ++ '(' :: b) (ha : '(' ∉ a) :
    ruleName tok = TrimSpace a := by
  unfold ruleName
  rw [h, if_pos (by simp), takeWhile_ne_append_cons a b '(' ha]

theorem ruleName_of_plain (tok : Str) (h : '(' ∉ TrimSpace tok) : ruleName tok = TrimSpace tok := by
  unfold ruleName
  rw [if_neg h]

/-- Form of `parseFuncBody` on a token with a `(` and a `)`, up to the lookup of the name. -/
theorem parseFuncBody_open (E : Env) (tok a b : Str) (h : TrimSpace tok = a ++ '(' :: b)
    (ha : '(' ∉ a) (hclose : ')' ∈ TrimSpace tok) :
    parseFuncBody E tok =
      match numIn E (TrimSpace a) with
      | (_, some err) => .ret (ValidFunc.zero, some err)
      | (num, none) =>
        match slice (TrimSpace tok) ((a.length : Int) + 1) (Index (TrimSpace tok) ')') with
        | none => .panic (.error (.runtime .sliceBounds))
        | some args =>
          if num ≠ ((Split args ',').length : Int) then
            .ret (ValidFunc.zero, some (.require (TrimSpace a) num))
          else match trim E (TrimSpace a) (Split args ',') with
            | .panic p => .panic p
            | .ret (_, some err) => .ret (ValidFunc.zero, some err)
            | .ret (tParams, none) => .ret (⟨TrimSpace a, tParams⟩, none) := by
  have hstart : Index (TrimSpace tok) '(' = (a.length : Int) := by
    rw [h]; exact Index_append_cons a b '(' ha
  have hstop : ¬ (Index (TrimSpace tok) ')' = -1) := by
    rw [Index_eq_neg_one_iff]; exact fun hn => hn hclose
  have htake : (TrimSpace tok).take ((a.length : Int)).toNat = a := by
    rw [h, Int.toNat_ofNat, List.take_left]
  have h1 : ¬ ((a.length : Int) = -1) := by omega
  unfold parseFuncBody
  simp only [hstart, htake, if_neg h1, if_neg hstop]

/-- Shape of a trimmed token with a `(`, a `)` and a registered rule name: the first `)`
comes after the first `(`. -/
theorem token_shape (E : Env) (hE : E.funcs.MethodNames) (tok : Str) (fn : FuncValue)
    (hR : E.funcs.get? (ruleName tok) = some fn) (hopen : '(' ∈ TrimSpace tok)
    (hclose : ')' ∈ TrimSpace tok) :
    ∃ a b e, TrimSpace tok = a ++ '(' :: b ++ ')' :: e ∧ '(' ∉ a ∧ ')' ∉ a ∧ ')' ∉ b ∧
      ruleName tok = TrimSpace a ∧ argText tok = b := by
  obtain ⟨a, rest, hab, ha⟩ := List.eq_append_cons_of_mem hopen
  have hname := ruleName_of_open tok a rest hab ha
  have hid := registered_isIdentifier hE hR
  rw [hname] at hid
  have ha2 : ')' ∉ a := fun hm =>
    isIdentifier_not_mem hid (by decide : ')'.toNat < 48)
      ((mem_TrimSpace_iff (by decide) a).mpr hm)
  have hrest : ')' ∈ rest := by
    rw [hab] at hclose
    simp only [List.mem_append, List.mem_cons] at hclose
    rcases hclose with h | h | h
    · exact absurd h ha2
    · exact absurd h (by decide)
    · exact h
  obtain ⟨b, e, hbe, hb⟩ := List.eq_append_cons_of_mem hrest
  refine ⟨a, b, e, ?_, ha, ha2, hb, hname, ?_⟩
  · rw [hab, hbe]; simp
  · unfold argText
    rw [hab, dropWhile_ne_append_cons a rest '(' ha, hbe]
    simp only [List.drop_succ_cons, List.drop_zero]
    exact takeWhile_ne_append_cons b e ')' hb

theorem trimLoop_length (E : Env) (fn : FuncValue) :
    ∀ (rest : List Str) (i : Nat) (ts : List Value) (r : List Value × Option Err),
      trimLoop E fn rest i ts = .ret r → r.1.length = ts.length
  | [], i, ts, r, h => by
    simp only [trimLoop, Go.ret.injEq] at h
    rw [← h]
  | a :: rest, i, ts, r, h => by
    unfold trimLoop at h
    cases hget : fn.In[i + 2]? with
    | none => rw [hget] at h; simp at h
    | some t =>
      rw [hget] at h
      simp only [] at h
      cases hmag : magic E t (TrimSpace a) with
      | mk param err =>
        rw [hmag] at h
        cases err with
        | some e =>
          simp only [Go.ret.injEq] at h
          rw [← h]
        | none =>
          simp only [] at h
          rw [trimLoop_length E fn rest (i + 1) _ r h, List.length_set]

theorem trim_ret_none (E : Env) (name : Str) (s : List Str) (ts : List Value)
    (h : trim E name s = .ret (ts, none)) :
    ∃ fn, E.funcs.get? name = some fn ∧ ts.length = s.length + 1 := by
  unfold trim at h
  cases hfn : E.funcs.get? name with
  | none => rw [hfn] at h; simp at h
  | some fn =>
    refine ⟨fn, rfl, ?_⟩
    rw [hfn] at h
    simp only [] at h
    cases hl : trimLoop E fn s 0 (List.replicate s.length Value.nil) with
    | panic p => rw [hl] at h; simp at h
    | ret r =>
      obtain ⟨ts1, err⟩ := r
      have hlen := trimLoop_length E fn s 0 _ _ hl
      rw [hl] at h
      cases err with
      | some e => simp at h
      | none =>
        simp only [Go.ret.injEq, Prod.mk.injEq, and_true] at h
        rw [← h]
        simp only [List.length_append, List.length_singleton, List.length_replicate] at hlen ⊢
        omega

theorem deferRecover_eq_ret_none {α : Type} (held : α) (g : Go (α × Option Err)) (x : α)
    (h : deferRecover held g = .ret (x, none)) : g = .ret (x, none) := by
  cases g with
  | ret r => exact h
  | panic p =>
    cases p with
    | error e => simp [deferRecover] at h
    | value v => simp [deferRecover] at h

theorem Funcs.Call_of_checks (f : Funcs) (name : Str) (fn : FuncValue) (params : List Value)
    (hfn : f.get? name = some fn) (hlen : params.length = fn.In.length) :
    Funcs.Call f name params = deferRecover [] (Funcs.invoke fn params) := by
  unfold Funcs.Call
  simp only [hfn, hlen, ne_eq, not_true_eq_false, if_false]

theorem Funcs.Call_of_mismatch (f : Funcs) (name : Str) (fn : FuncValue) (params : List Value)
    (hfn : f.get? name = some fn) (hlen : params.length ≠ fn.In.length) :
    Funcs.Call f name params = .ret ([], some .notAdapted) := by
  unfold Funcs.Call
  simp only [hfn, hlen, ne_eq, not_false_eq_true, if_true]
  rfl

/-- Dispatch of an error-valued panic: `Funcs.Call` returns normally with that error. -/
theorem Funcs.Call_recovers_error (f : Funcs) (name : Str) (fn : FuncValue)
    (params : List Value) (e : Err) (hfn : f.get? name = some fn)
    (hlen : params.length = fn.In.length) (hp : fn.Call params = .panic (.error e)) :
    Funcs.Call f name params = .ret ([], some e) := by
  rw [Funcs.Call_of_checks f name fn params hfn hlen]
  simp only [Funcs.invoke, hp, deferRecover]

/-- Dispatch of a panic whose value is not an error: the panic of the failed assertion
`r.(error)` leaves `Funcs.Call`. -/
theorem Funcs.Call_escapes (f : Funcs) (name : Str) (fn : FuncValue)
    (params : List Value) (v : Value) (hfn : f.get? name = some fn)
    (hlen : params.length = fn.In.length) (hp : fn.Call params = .panic (.value v)) :
    Funcs.Call f name params = .panic (.error (.runtime .typeAssertion)) := by
  rw [Funcs.Call_of_checks f name fn params hfn hlen]
  simp only [Funcs.invoke, hp, deferRecover]

theorem Atoi_err (s : Str) :
    (Atoi s).2 = none ∨ ∃ kind, (Atoi s).2 = some (.numError s kind) := by
  unfold Atoi
  simp only []
  repeat' split
  all_goals first | exact Or.inl rfl | exact Or.inr ⟨_, rfl⟩

theorem digitChar_spec :
    ∀ d, d < 10 →
      ('0' ≤ Nat.digitChar d ∧ Nat.digitChar d ≤ '9') ∧ (Nat.digitChar d).toNat - 48 = d := by
  decide

theorem maxUint64_eq : maxUint64 = 18446744073709551615 := by
  norm_num [maxUint64]

theorem intCutoff_eq : intCutoff = 9223372036854775808 := by
  norm_num [intCutoff]

theorem digitsValue_append (xs ys : Str) (acc : Nat) :
    digitsValue (xs ++ ys) acc = digitsValue ys (digitsValue xs acc) := by
  induction xs generalizing acc with
  | nil => rfl
  | cons c cs ih => exact ih _

theorem le_digitsValue (xs : Str) (acc : Nat) : acc ≤ digitsValue xs acc := by
  induction xs generalizing acc with
  | nil => exact Nat.le_refl _
  | cons c cs ih =>
    have := ih (acc * 10 + (c.toNat - 48))
    simp only [digitsValue]
    omega

/-- What the loop of `ParseUint` returns: `ErrRange` when the run of digits at the front
of the text writes a number beyond `uint64`, else the number when the text is all
digits, else `ErrSyntax`. -/
theorem parseUintLoop_eq :
    ∀ (xs : Str) (n : Nat), n ≤ maxUint64 →
      parseUintLoop xs n =
        if maxUint64 < digitsValue (xs.takeWhile isDigit) n then (maxUint64, some .ErrRange)
        else if xs.all isDigit = true then (digitsValue xs n, none)
        else (0, some .ErrSyntax)
  | [], n, hn => by
    simp only [parseUintLoop, List.takeWhile_nil, digitsValue, List.all_nil, if_true]
    rw [if_neg (by omega)]
  | c :: cs, n, hn => by
    unfold parseUintLoop
    by_cases hc : '0' ≤ c ∧ c ≤ '9'
    · have hd : isDigit c = true := by simpa [isDigit] using hc
      have hmono := le_digitsValue (cs.takeWhile isDigit) (n * 10 + (c.toNat - 48))
      rw [if_pos hc]
      simp only [List.takeWhile_cons, hd, if_true, digitsValue, List.all_cons, Bool.true_and]
      rw [maxUint64_eq] at hn ⊢
      by_cases h1 : 18446744073709551615 / 10 + 1 ≤ n
      · rw [if_pos h1, if_pos (by omega)]
      · rw [if_neg h1]
        by_cases h2 : 18446744073709551615 < n * 10 + (c.toNat - 48)
        · rw [if_pos h2, if_pos (by omega)]
        · rw [if_neg h2]
          have ih := parseUintLoop_eq cs (n * 10 + (c.toNat - 48))
            (by rw [maxUint64_eq]; omega)
          rw [maxUint64_eq] at ih
          exact ih
    · have hd : isDigit c = false := by simpa [isDigit] using hc
      rw [if_neg hc]
      simp only [List.takeWhile_cons, hd, Bool.false_eq_true, if_false, digitsValue,
        List.all_cons, Bool.false_and]
      rw [if_neg (by omega)]

theorem toDigitsCore_append (fuel : Nat) :
    ∀ (n : Nat) (ds : List Char),
      Nat.toDigitsCore 10 fuel n ds = Nat.toDigitsCore 10 fuel n [] ++ ds := by
  induction fuel with
  | zero => intro n ds; simp [Nat.toDigitsCore]
  | succ fuel ih =>
    intro n ds
    simp only [Nat.toDigitsCore]
    split
    · simp
    · rw [ih (n / 10) (Nat.digitChar (n % 10) :: ds), ih (n / 10) [Nat.digitChar (n % 10)]]
      simp

theorem digitsValue_toDigitsCore (fuel : Nat) :
    ∀ n : Nat, n < fuel → digitsValue (Nat.toDigitsCore 10 fuel n []) 0 = n := by
  induction fuel with
  | zero => intro n h; omega
  | succ fuel ih =>
    intro n h
    have hd := digitChar_spec (n % 10) (Nat.mod_lt _ (by decide))
    simp only [Nat.toDigitsCore]
    split
    · rename_i h0
      simp only [digitsValue, hd.2]
      have : n / 10 = 0 := h0
      omega
    · rename_i h0
      have hlt : n / 10 < fuel := by omega
      rw [toDigitsCore_append, digitsValue_append, ih (n / 10) hlt]
      simp only [digitsValue, hd.2]
      omega

theorem all_isDigit_toDigitsCore (fuel : Nat) :
    ∀ n : Nat, (Nat.toDigitsCore 10 fuel n []).all isDigit = true := by
  induction fuel with
  | zero => intro n; rfl
  | succ fuel ih =>
    intro n
    have hd := digitChar_spec (n % 10) (Nat.mod_lt _ (by decide))
    have hdig : isDigit (Nat.digitChar (n % 10)) = true := by simpa [isDigit] using hd.1
    simp only [Nat.toDigitsCore]
    split
    · simp [hdig]
    · rw [toDigitsCore_append, List.all_append, ih (n / 10)]
      simp [hdig]

theorem digitsValue_toDigits (n : Nat) : digitsValue (Nat.toDigits 10 n) 0 = n :=
  digitsValue_toDigitsCore (n + 1) n (Nat.lt_succ_self n)

theorem all_isDigit_toDigits (n : Nat) : (Nat.toDigits 10 n).all isDigit = true :=
  all_isDigit_toDigitsCore (n + 1) n

theorem toDigits_ne_nil (n : Nat) : Nat.toDigits 10 n ≠ [] := by
  unfold Nat.toDigits
  simp only [Nat.toDigitsCore]
  split
  · simp
  · rw [toDigitsCore_append]
    simp

theorem isDigit_not_sign {c : Char} (h : isDigit c = true) : c ≠ '-' ∧ c ≠ '+' := by
  constructor
  · rintro rfl
    exact absurd h (by decide)
  · rintro rfl
    exact absurd h (by decide)

theorem toDigits_head (n : Nat) :
    ¬ ((Nat.toDigits 10 n).head? = some '-' ∨ (Nat.toDigits 10 n).head? = some '+') := by
  have hall := List.all_eq_true.mp (all_isDigit_toDigits n)
  rintro (h | h)
  · exact (isDigit_not_sign (hall _ (List.mem_of_mem_head? h))).1 rfl
  · exact (isDigit_not_sign (hall _ (List.mem_of_mem_head? h))).2 rfl

theorem takeWhile_of_all {p : Char → Bool} :
    ∀ xs : Str, xs.all p = true → xs.takeWhile p = xs
  | [], _ => rfl
  | c :: cs, h => by
    simp only [List.all_cons, Bool.and_eq_true] at h
    simp only [List.takeWhile_cons, h.1, if_true, takeWhile_of_all cs h.2]

theorem ParseUint_toDigits (n : Nat) :
    ParseUint (Nat.toDigits 10 n) =
      if maxUint64 < n then (maxUint64, some .ErrRange) else (n, none) := by
  unfold ParseUint
  rw [if_neg (toDigits_ne_nil n), parseUintLoop_eq _ 0 (Nat.zero_le _),
    takeWhile_of_all _ (all_isDigit_toDigits n), digitsValue_toDigits, all_isDigit_toDigits]
  simp

/-- Value of `Atoi` in terms of what `ParseUint` returns for the text after the sign. -/
theorem Atoi_eq (s : Str) :
    Atoi s =
      match ParseUint (unsignedPart s) with
      | (_, some .ErrSyntax) => (0, some (.numError s .ErrSyntax))
      | (un, _) =>
        if ¬ (s.head? = some '-') ∧ intCutoff ≤ un then
          ((intCutoff : Int) - 1, some (.numError s .ErrRange))
        else if s.head? = some '-' ∧ intCutoff < un then
          (-(intCutoff : Int), some (.numError s .ErrRange))
        else if s.head? = some '-' then (-(un : Int), none)
        else ((un : Int), none) := rfl

theorem Atoi_of_digits (s : Str) (m : Nat) (h : unsignedPart s = Nat.toDigits 10 m) :
    Atoi s =
      if ¬ (s.head? = some '-') ∧ intCutoff ≤ m then
        ((intCutoff : Int) - 1, some (.numError s .ErrRange))
      else if s.head? = some '-' ∧ intCutoff < m then
        (-(intCutoff : Int), some (.numError s .ErrRange))
      else if s.head? = some '-' then (-(m : Int), none)
      else ((m : Int), none) := by
  rw [Atoi_eq, h, ParseUint_toDigits]
  by_cases hm : maxUint64 < m
  · rw [if_pos hm]
    simp only []
    rw [maxUint64_eq] at hm ⊢
    rw [intCutoff_eq]
    by_cases hneg : s.head? = some '-'
    · rw [if_neg (by simp [hneg]), if_pos ⟨hneg, by omega⟩, if_neg (by simp [hneg]),
        if_pos ⟨hneg, by omega⟩]
    · rw [if_pos ⟨hneg, by omega⟩, if_pos ⟨hneg, by omega⟩]
  · rw [if_neg hm]

theorem unsignedPart_minus (xs : Str) : unsignedPart ('-' :: xs) = xs := by
  simp [unsignedPart]

theorem unsignedPart_plus (xs : Str) : unsignedPart ('+' :: xs) = xs := by
  simp [unsignedPart]

theorem unsignedPart_toDigits (n : Nat) :
    unsignedPart (Nat.toDigits 10 n) = Nat.toDigits 10 n := by
  unfold unsignedPart
  rw [if_neg (toDigits_head n)]

theorem Atoi_decimalText (n : Int) (h : inIntRange n) : Atoi (decimalText n) = (n, none) := by
  unfold inIntRange at h
  norm_num at h
  unfold decimalText
  by_cases hn : n < 0
  · rw [if_pos hn, Atoi_of_digits _ n.natAbs (unsignedPart_minus _), intCutoff_eq]
    rw [if_neg (by simp), if_neg (by rintro ⟨_, h2⟩; omega), if_pos (by simp)]
    congr 1
    omega
  · have hneg : ¬ ((Nat.toDigits 10 n.natAbs).head? = some '-') :=
      fun e => toDigits_head _ (Or.inl e)
    rw [if_neg hn, Atoi_of_digits _ n.natAbs (unsignedPart_toDigits _), intCutoff_eq]
    rw [if_neg (by rintro ⟨_, h2⟩; omega), if_neg (fun h2 => hneg h2.1), if_neg hneg]
    congr 1
    omega

theorem Atoi_plus_decimalText (n : Int) (h0 : 0 ≤ n) (h : inIntRange n) :
    Atoi ('+' :: decimalText n) = (n, none) := by
  unfold inIntRange at h
  norm_num at h
  unfold decimalText
  rw [if_neg (by omega), Atoi_of_digits _ n.natAbs (unsignedPart_plus _), intCutoff_eq]
  rw [if_neg (by rintro ⟨_, h2⟩; omega), if_neg (by simp), if_neg (by simp)]
  congr 1
  omega

theorem Atoi_decimalText_out (n : Int) (h : ¬ inIntRange n) :
    Atoi (decimalText n) =
      (clampedInt (decimalText n), some (.numError (decimalText n) .ErrRange)) := by
  unfold inIntRange at h
  norm_num at h
  unfold clampedInt
  by_cases hn : n < 0
  · have hs : decimalText n = '-' :: Nat.toDigits 10 n.natAbs := by
      unfold decimalText; rw [if_pos hn]
    rw [hs, Atoi_of_digits _ n.natAbs (unsignedPart_minus _), intCutoff_eq]
    have hlt : 9223372036854775808 < n.natAbs := by
      have := h
      omega
    rw [if_neg (by simp), if_pos ⟨by simp, hlt⟩]
    simp
  · have hs : decimalText n = Nat.toDigits 10 n.natAbs := by
      unfold decimalText; rw [if_neg hn]
    have hneg : ¬ ((Nat.toDigits 10 n.natAbs).head? = some '-') :=
      fun e => toDigits_head _ (Or.inl e)
    rw [hs, Atoi_of_digits _ n.natAbs (unsignedPart_toDigits _), intCutoff_eq]
    have hle : 9223372036854775808 ≤ n.natAbs := by
      have := h
      omega
    rw [if_pos ⟨hneg, hle⟩, if_neg hneg]
    simp

theorem Atoi_not_decimal (s : Str) (h : isDecimal s = false) :
    Atoi s =
      if digitsValue ((unsignedPart s).takeWhile isDigit) 0 ≤ maxUint64 then
        (0, some (.numError s .ErrSyntax))
      else (clampedInt s, some (.numError s .ErrRange)) := by
  have hdec : unsignedPart s = [] ∨ (unsignedPart s).all isDigit = false := by
    unfold isDecimal at h
    simp only [] at h
    unfold unsignedPart
    generalize (if s.head? = some '-' ∨ s.head? = some '+' then s.tail else s) = digits at h ⊢
    cases digits with
    | nil => exact Or.inl rfl
    | cons c cs => exact Or.inr (by simpa using h)
  rw [Atoi_eq]
  rcases hdec with he | hall
  · rw [he]
    simp [ParseUint, digitsValue]
  · have hne : unsignedPart s ≠ [] := by
      intro he
      rw [he] at hall
      simp at hall
    unfold ParseUint
    rw [if_neg hne, parseUintLoop_eq _ 0 (Nat.zero_le _)]
    simp only [hall, Bool.false_eq_true, if_false]
    by_cases hov : maxUint64 < digitsValue ((unsignedPart s).takeWhile isDigit) 0
    · have hle : ¬ (digitsValue ((unsignedPart s).takeWhile isDigit) 0 ≤ maxUint64) := by omega
      simp only [hov, hle, if_true, if_false]
      unfold clampedInt
      rw [maxUint64_eq, intCutoff_eq]
      by_cases hneg : s.head? = some '-'
      · rw [if_neg (by simp [hneg]), if_pos ⟨hneg, by omega⟩, if_pos hneg]
        simp
      · rw [if_pos ⟨hneg, by omega⟩, if_neg hneg]
        simp
    · have hle : digitsValue ((unsignedPart s).takeWhile isDigit) 0 ≤ maxUint64 := by omega
      simp only [hov, hle, if_true, if_false]

theorem Funcs.get?_set (f : Funcs) (k : Str) (v : FuncValue) (name : Str) :
    (f.set k v).get? name = if k = name then some v else f.get? name := rfl

theorem initLoop_get? :
    ∀ (ms : List Method), (ms.map Method.Name).Nodup →
      ∀ (f : Funcs) (name : Str) (fn : FuncValue),
        (initLoop ms f).get? name = some fn ↔
          (unFuncsAt name = false ∧ ∃ m ∈ ms, m.Name = name ∧ m.Func = fn) ∨
            ((∀ m ∈ ms, m.Name = name → unFuncsAt name = true) ∧ f.get? name = some fn)
  | [], _, f, name, fn => by simp [initLoop]
  | m :: rest, hnd, f, name, fn => by
    have hnd2 : (rest.map Method.Name).Nodup := (List.nodup_cons.mp hnd).2
    have hnot : ∀ m2 ∈ rest, m2.Name ≠ m.Name := by
      intro m2 hm2 e
      exact (List.nodup_cons.mp hnd).1 (List.mem_map.mpr ⟨m2, hm2, e⟩)
    unfold initLoop
    by_cases hres : unFuncsAt m.Name = true
    · simp only [hres, Bool.not_true, Bool.false_eq_true, if_false]
      rw [initLoop_get? rest hnd2 f name fn]
      constructor
      · rintro (⟨h1, m2, hm2, h2, h3⟩ | ⟨h1, h2⟩)
        · exact Or.inl ⟨h1, m2, List.mem_cons_of_mem _ hm2, h2, h3⟩
        · refine Or.inr ⟨?_, h2⟩
          intro m2 hm2 e
          rcases List.mem_cons.mp hm2 with rfl | hm2
          · rw [← e]; exact hres
          · exact h1 m2 hm2 e
      · rintro (⟨h1, m2, hm2, h2, h3⟩ | ⟨h1, h2⟩)
        · rcases List.mem_cons.mp hm2 with rfl | hm2
          · rw [h2, h1] at hres; cases hres
          · exact Or.inl ⟨h1, m2, hm2, h2, h3⟩
        · exact Or.inr ⟨fun m2 hm2 e => h1 m2 (List.mem_cons_of_mem _ hm2) e, h2⟩
    · have hres2 : unFuncsAt m.Name = false := by simpa using hres
      simp only [hres2, Bool.not_false, if_true]
      rw [initLoop_get? rest hnd2 (f.set m.Name m.Func) name fn, Funcs.get?_set]
      by_cases hname : m.Name = name
      · subst hname
        simp only [if_true, Option.some.injEq]
        constructor
        · rintro (⟨_, m2, hm2, h2, _⟩ | ⟨_, h2⟩)
          · exact absurd h2 (hnot m2 hm2)
          · exact Or.inl ⟨hres2, m, List.mem_cons_self _ _, rfl, h2⟩
        · rintro (⟨_, m2, hm2, h2, h3⟩ | ⟨h1, _⟩)
          · rcases List.mem_cons.mp hm2 with rfl | hm2
            · exact Or.inr ⟨fun m3 hm3 e => absurd e (hnot m3 hm3), h3⟩
            · exact absurd h2 (hnot m2 hm2)
          · have := h1 m (List.mem_cons_self _ _) rfl
            rw [hres2] at this; cases this
      · simp only [hname, if_false]
        constructor
        · rintro (⟨h1, m2, hm2, h2, h3⟩ | ⟨h1, h2⟩)
          · exact Or.inl ⟨h1, m2, List.mem_cons_of_mem _ hm2, h2, h3⟩
          · refine Or.inr ⟨?_, h2⟩
            intro m2 hm2 e
            rcases List.mem_cons.mp hm2 with rfl | hm2
            · exact absurd e hname
            · exact h1 m2 hm2 e
        · rintro (⟨h1, m2, hm2, h2, h3⟩ | ⟨h1, h2⟩)
          · rcases List.mem_cons.mp hm2 with rfl | hm2
            · exact absurd h2 hname
            · exact Or.inl ⟨h1, m2, hm2, h2, h3⟩
          · exact Or.inr ⟨fun m2 hm2 e => h1 m2 (List.mem_cons_of_mem _ hm2) e, h2⟩

theorem lookup_getD_true (l : List (Str × Bool)) (h : ∀ p ∈ l, p.2 = true) (name : Str) :
    (l.lookup name).getD false = true ↔ name ∈ l.map Prod.fst := by
  induction l with
  | nil => simp
  | cons kv rest ih =>
    obtain ⟨k, v⟩ := kv
    have hv : v = true := h (k, v) (List.mem_cons_self _ _)
    have ih2 := ih (fun p hp => h p (List.mem_cons_of_mem _ hp))
    rw [List.lookup_cons]
    by_cases hk : name = k
    · subst hk
      simp [hv]
    · have hb : (name == k) = false := by simpa using hk
      simp only [hb, List.map_cons, List.mem_cons, hk, false_or]
      exact ih2

theorem initLoop_MethodNames :
    ∀ (ms : List Method) (f : Funcs), (∀ m ∈ ms, isIdentifier m.Name = true) →
      f.MethodNames → (initLoop ms f).MethodNames
  | [], f, _, hf => hf
  | m :: rest, f, hms, hf => by
    unfold initLoop
    have hrest : ∀ m2 ∈ rest, isIdentifier m2.Name = true :=
      fun m2 h => hms m2 (List.mem_cons_of_mem _ h)
    split
    · apply initLoop_MethodNames rest _ hrest
      intro p hp
      rcases List.mem_cons.mp hp with rfl | hp
      · exact hms m (List.mem_cons_self _ _)
      · exact hf p hp
    · exact initLoop_MethodNames rest f hrest hf

/-- The registry that `init` builds from methods named by identifiers has method names
for keys. -/
theorem init_MethodNames (ms : List Method) (h : ∀ m ∈ ms, isIdentifier m.Name = true) :
    (init ms).MethodNames :=
  initLoop_MethodNames ms [] h (fun p hp => by simp at hp)

theorem trimLoop_panic (E : Env) (fn : FuncValue) :
    ∀ (rest : List Str) (i : Nat) (ts : List Value) (p : PanicValue),
      trimLoop E fn rest i ts = .panic p → p = .error (.runtime .indexRange)
  | [], i, ts, p, h => by simp [trimLoop] at h
  | a :: rest, i, ts, p, h => by
    unfold trimLoop at h
    cases hget : fn.In[i + 2]? with
    | none =>
      rw [hget] at h
      simp only [Go.panic.injEq] at h
      exact h.symm
    | some t =>
      rw [hget] at h
      simp only [] at h
      cases hmag : magic E t (TrimSpace a) with
      | mk param err =>
        rw [hmag] at h
        cases err with
        | some e => simp at h
        | none => exact trimLoop_panic E fn rest (i + 1) _ p h

theorem trim_panic (E : Env) (name : Str) (s : List Str) (p : PanicValue)
    (h : trim E name s = .panic p) : p = .error (.runtime .indexRange) := by
  unfold trim at h
  cases hfn : E.funcs.get? name with
  | none => rw [hfn] at h; simp at h
  | some fn =>
    rw [hfn] at h
    simp only [] at h
    cases hl : trimLoop E fn s 0 (List.replicate s.length Value.nil) with
    | panic q =>
      rw [hl] at h
      simp only [Go.panic.injEq] at h
      rw [← h]
      exact trimLoop_panic E fn s 0 _ q hl
    | ret r =>
      obtain ⟨ts, err⟩ := r
      rw [hl] at h
      cases err <;> simp at h

theorem parseFuncBody_panic (E : Env) (tok : Str) (p : PanicValue)
    (h : parseFuncBody E tok = .panic p) : ∃ e, p = .error e := by
  unfold parseFuncBody at h
  simp only [] at h
  split at h
  · split at h
    · simp at h
    · split at h <;> simp at h
  · split at h
    · simp at h
    · split at h
      · simp at h
      · split at h
        · simp only [Go.panic.injEq] at h
          exact ⟨_, h.symm⟩
        · split at h
          · simp at h
          · split at h
            · rename_i q hq
              simp only [Go.panic.injEq] at h
              rw [← h]
              exact ⟨_, trim_panic E _ _ q hq⟩
            · simp at h
            · simp at h

/-- No panic leaves `parseFunc`: every panic of its body carries an error and is
recovered. -/
theorem parseFunc_ret (E : Env) (tok : Str) : ∃ r, parseFunc E tok = .ret r := by
  unfold parseFunc
  cases h : parseFuncBody E tok with
  | ret r => exact ⟨r, rfl⟩
  | panic p =>
    obtain ⟨e, rfl⟩ := parseFuncBody_panic E tok p h
    exact ⟨(ValidFunc.zero, some e), rfl⟩

theorem getValidFuncsLoop_append (E : Env) (pre : List Str) (vfs : List ValidFunc)
    (rest : List Str) (acc : List ValidFunc)
    (hpre : List.Forall₂ (fun tok vf => parseFunc E tok = .ret (vf, none)) pre vfs) :
    getValidFuncsLoop E (pre ++ rest) acc = getValidFuncsLoop E rest (acc ++ vfs) := by
  induction hpre generalizing acc with
  | nil => simp
  | @cons tok vf pre vfs h _ ih =>
    simp only [List.cons_append, getValidFuncsLoop, h]
    show getValidFuncsLoop E (pre ++ rest) (acc ++ [vf]) = _
    rw [ih (acc ++ [vf])]
    simp

theorem all_ok_forall₂ (E : Env) :
    ∀ toks : List Str, (∀ tok ∈ toks, ∃ vf, parseFunc E tok = .ret (vf, none)) →
      ∃ vfs, List.Forall₂ (fun tok vf => parseFunc E tok = .ret (vf, none)) toks vfs
  | [], _ => ⟨[], .nil⟩
  | tok :: rest, h => by
    obtain ⟨vf, hvf⟩ := h tok (List.mem_cons_self _ _)
    obtain ⟨vfs, hvfs⟩ := all_ok_forall₂ E rest (fun t ht => h t (List.mem_cons_of_mem _ ht))
    exact ⟨vf :: vfs, .cons hvf hvfs⟩

theorem first_failure (E : Env) :
    ∀ toks : List Str, (∃ tok ∈ toks, ∃ v e, parseFunc E tok = .ret (v, some e)) →
      ∃ pre bad later vfs v e, toks = pre ++ bad :: later ∧
        List.Forall₂ (fun tok vf => parseFunc E tok = .ret (vf, none)) pre vfs ∧
        parseFunc E bad = .ret (v, some e)
  | [], h => by
    obtain ⟨tok, hm, _⟩ := h
    simp at hm
  | t :: rest, h => by
    obtain ⟨⟨vf, err⟩, hr⟩ := parseFunc_ret E t
    cases err with
    | some e => exact ⟨[], t, rest, [], vf, e, rfl, .nil, hr⟩
    | none =>
      have h2 : ∃ tok ∈ rest, ∃ v e, parseFunc E tok = .ret (v, some e) := by
        obtain ⟨tok, hm, v, e, hp⟩ := h
        rcases List.mem_cons.mp hm with rfl | hm
        · rw [hr] at hp; simp at hp
        · exact ⟨tok, hm, v, e, hp⟩
      obtain ⟨pre, bad, later, vfs, v, e, hs, hpre, hbad⟩ := first_failure E rest h2
      exact ⟨t :: pre, bad, later, vf :: vfs, v, e, by rw [hs]; rfl, .cons hr hpre, hbad⟩

theorem trimLoop_inv (E : Env) (fn : FuncValue) :
    ∀ (rest : List Str) (i : Nat) (done ts : List Value), done.length = i →
      trimLoop E fn rest i (done ++ List.replicate rest.length Value.nil) = .ret (ts, none) →
      ∃ vals, ts = done ++ vals ∧ vals.length = rest.length ∧
        ∀ j, j < rest.length → ∃ t val s, fn.In[i + 2 + j]? = some t ∧
          vals[j]? = some val ∧ magic E t s = (val, none)
  | [], i, done, ts, _, h => by
    simp only [trimLoop, List.length_nil, List.replicate_zero, List.append_nil, Go.ret.injEq,
      Prod.mk.injEq, and_true] at h
    exact ⟨[], by simp [h], rfl, fun j hj => by simp at hj⟩
  | a :: rest, i, done, ts, hd, h => by
    unfold trimLoop at h
    cases hget : fn.In[i + 2]? with
    | none => rw [hget] at h; simp at h
    | some t =>
      rw [hget] at h
      simp only [] at h
      cases hmag : magic E t (TrimSpace a) with
      | mk param err =>
        rw [hmag] at h
        cases err with
        | some e => simp at h
        | none =>
          simp only [] at h
          have hset : (done ++ List.replicate (a :: rest).length Value.nil).set i param =
              (done ++ [param]) ++ List.replicate rest.length Value.nil := by
            subst hd
            simp [List.replicate_succ]
          rw [hset] at h
          obtain ⟨vals, hts, hlen, hall⟩ :=
            trimLoop_inv E fn rest (i + 1) (done ++ [param]) ts (by simp [hd]) h
          refine ⟨param :: vals, by simp [hts], by simp [hlen], ?_⟩
          intro j hj
          cases j with
          | zero => exact ⟨t, param, TrimSpace a, hget, by simp, hmag⟩
          | succ j =>
            obtain ⟨t2, val, s, h1, h2, h3⟩ := hall j (by simpa using hj)
            refine ⟨t2, val, s, ?_, by simpa using h2, h3⟩
            rw [show i + 2 + (j + 1) = i + 1 + 2 + j by omega]
            exact h1

theorem trim_inv (E : Env) (name : Str) (s : List Str) (ts : List Value)
    (h : trim E name s = .ret (ts, none)) :
    ∃ fn vals, E.funcs.get? name = some fn ∧ ts = vals ++ [.str name] ∧
      vals.length = s.length ∧
      ∀ j, j < s.length → ∃ t val x, fn.In[j + 2]? = some t ∧ vals[j]? = some val ∧
        magic E t x = (val, none) := by
  unfold trim at h
  cases hfn : E.funcs.get? name with
  | none => rw [hfn] at h; simp at h
  | some fn =>
    rw [hfn] at h
    simp only [] at h
    cases hl : trimLoop E fn s 0 (List.replicate s.length Value.nil) with
    | panic p => rw [hl] at h; simp at h
    | ret r =>
      obtain ⟨ts1, err⟩ := r
      rw [hl] at h
      cases err with
      | some e => simp at h
      | none =>
        simp only [Go.ret.injEq, Prod.mk.injEq, and_true] at h
        obtain ⟨vals, hts, hlen, hall⟩ := trimLoop_inv E fn s 0 [] ts1 rfl (by simpa using hl)
        refine ⟨fn, vals, rfl, by rw [← h, hts]; simp, hlen, ?_⟩
        intro j hj
        obtain ⟨t, val, x, h1, h2, h3⟩ := hall j hj
        exact ⟨t, val, x, by rw [show j + 2 = 0 + 2 + j by omega]; exact h1, h2, h3⟩

/-- A descriptor that `parseFunc` returns without error comes from `trim` on as many
raw arguments as the declared arity of its name (none for a token without `(`). -/
theorem parseFunc_ok_inv (E : Env) (tok : Str) (vf : ValidFunc)
    (h : parseFunc E tok = .ret (vf, none)) :
    ∃ fn args, E.funcs.get? vf.Name = some fn ∧
      (fn.In.length : Int) - 3 = (args.length : Int) ∧
      trim E vf.Name args = .ret (vf.Params, none) := by
  have hb := deferRecover_eq_ret_none _ _ _ h
  by_cases hopen : '(' ∈ TrimSpace tok
  · by_cases hclose : ')' ∈ TrimSpace tok
    · obtain ⟨a, b, hab, ha⟩ := List.eq_append_cons_of_mem hopen
      rw [parseFuncBody_open E tok a b hab ha hclose] at hb
      cases hfn : E.funcs.get? (TrimSpace a) with
      | none => rw [numIn_of_none hfn] at hb; simp at hb
      | some fn =>
        rw [numIn_of_get? hfn] at hb
        simp only [] at hb
        cases hs : slice (TrimSpace tok) ((a.length : Int) + 1) (Index (TrimSpace tok) ')') with
        | none => rw [hs] at hb; simp at hb
        | some args =>
          rw [hs] at hb
          simp only [] at hb
          by_cases hnum : (fn.In.length : Int) - 3 = ((Split args ',').length : Int)
          · rw [if_neg (by simpa using hnum)] at hb
            cases ht : trim E (TrimSpace a) (Split args ',') with
            | panic p => rw [ht] at hb; simp at hb
            | ret r =>
              obtain ⟨ts, err⟩ := r
              rw [ht] at hb
              cases err with
              | some e => simp at hb
              | none =>
                simp only [Go.ret.injEq, Prod.mk.injEq, and_true] at hb
                subst hb
                exact ⟨fn, Split args ',', hfn, hnum, ht⟩
          · rw [if_pos (by simpa using hnum)] at hb
            simp at hb
    · have h1 : ¬ (Index (TrimSpace tok) '(' = -1) := by
        rw [Index_eq_neg_one_iff]; exact fun hn => hn hopen
      unfold parseFuncBody at hb
      simp only [if_neg h1, Index_of_not_mem hclose, if_true] at hb
      simp at hb
  · rw [parseFuncBody_plain E tok hopen] at hb
    cases hfn : E.funcs.get? (TrimSpace tok) with
    | none => rw [numIn_of_none hfn] at hb; simp at hb
    | some fn =>
      rw [numIn_of_get? hfn] at hb
      simp only [] at hb
      by_cases hnum : (fn.In.length : Int) - 3 = 0
      · rw [if_neg (by simpa using hnum)] at hb
        simp only [Go.ret.injEq, Prod.mk.injEq, and_true] at hb
        subst hb
        refine ⟨fn, [], hfn, by simpa using hnum, ?_⟩
        simp only [trim, hfn, trimLoop, List.length_nil, List.replicate_zero, List.nil_append]
      · rw [if_pos (by simpa using hnum)] at hb
        simp at hb

theorem magic_fits (E : Env) (t : RType) (s : Str) (val : Value)
    (h : magic E t s = (val, none)) :
    val.fits t ∧ ((t = tInt ∨ t = tString ∨ t = tRegexp) → val.typeOf = some t) := by
  cases t with
  | ptr e =>
    unfold magic at h
    simp only [] at h
    split at h
    · simp at h
    · rename_i he
      have he2 : e.String = "regexp.Regexp".toList := by simpa using he
      cases hr : E.regexpError s with
      | some code => rw [hr] at h; simp at h
      | none =>
        rw [hr] at h
        simp only [Prod.mk.injEq, and_true] at h
        subst h
        refine ⟨⟨s, rfl⟩, ?_⟩
        rintro (h1 | h1 | h1)
        · cases h1
        · cases h1
        · rw [h1]; rfl
  | named k name =>
    cases k
    case Int =>
      have h2 : (Value.int (Atoi s).1, (Atoi s).2) = (val, none) := h
      simp only [Prod.mk.injEq] at h2
      refine ⟨⟨_, h2.1.symm⟩, ?_⟩
      rintro (h1 | h1 | h1)
      · rw [h1, ← h2.1]; rfl
      · cases h1
      · cases h1
    case String =>
      have h2 : (Value.str s, (none : Option Err)) = (val, none) := h
      simp only [Prod.mk.injEq, and_true] at h2
      refine ⟨⟨_, h2.symm⟩, ?_⟩
      rintro (h1 | h1 | h1)
      · cases h1
      · rw [h1, ← h2]; rfl
      · cases h1
    all_goals simp [magic] at h

theorem trimLoop_no_panic (E : Env) (fn : FuncValue) :
    ∀ (rest : List Str) (i : Nat) (ts : List Value), i + 2 + rest.length ≤ fn.In.length →
      ∃ r, trimLoop E fn rest i ts = .ret r
  | [], i, ts, _ => ⟨(ts, none), rfl⟩
  | a :: rest, i, ts, h => by
    have hi : i + 2 < fn.In.length := by
      simp only [List.length_cons] at h; omega
    unfold trimLoop
    rw [List.getElem?_eq_getElem hi]
    simp only []
    cases hmag : magic E fn.In[i + 2] (TrimSpace a) with
    | mk param err =>
      cases err with
      | some e => exact ⟨_, rfl⟩
      | none =>
        exact trimLoop_no_panic E fn rest (i + 1) _ (by
          simp only [List.length_cons] at h; omega)

theorem trim_no_panic (E : Env) (name : Str) (s : List Str)
    (h : ∀ fn, E.funcs.get? name = some fn → s.length + 2 ≤ fn.In.length) :
    ∃ r, trim E name s = .ret r := by
  unfold trim
  cases hfn : E.funcs.get? name with
  | none => exact ⟨_, rfl⟩
  | some fn =>
    simp only []
    obtain ⟨r, hr⟩ := trimLoop_no_panic E fn s 0 (List.replicate s.length Value.nil)
      (by have := h fn hfn; omega)
    rw [hr]
    obtain ⟨ts, err⟩ := r
    cases err with
    | some e => exact ⟨_, rfl⟩
    | none => exact ⟨_, rfl⟩

/-- Shape of a trimmed token with a `(` and a `)` whose rule name has no `)`. -/
theorem token_shape_of_name (tok : Str) (hname : ')' ∉ ruleName tok)
    (hopen : '(' ∈ TrimSpace tok) (hclose : ')' ∈ TrimSpace tok) :
    ∃ a b e, TrimSpace tok = a ++ '(' :: b ++ ')' :: e ∧ '(' ∉ a ∧ ')' ∉ a ∧ ')' ∉ b ∧
      ruleName tok = TrimSpace a := by
  obtain ⟨a, rest, hab, ha⟩ := List.eq_append_cons_of_mem hopen
  have hn := ruleName_of_open tok a rest hab ha
  rw [hn] at hname
  have ha2 : ')' ∉ a := fun hm => hname ((mem_TrimSpace_iff (by decide) a).mpr hm)
  have hrest : ')' ∈ rest := by
    rw [hab] at hclose
    simp only [List.mem_append, List.mem_cons] at hclose
    rcases hclose with h | h | h
    · exact absurd h ha2
    · exact absurd h (by decide)
    · exact h
  obtain ⟨b, e, hbe, hb⟩ := List.eq_append_cons_of_mem hrest
  exact ⟨a, b, e, by rw [hab, hbe]; simp, ha, ha2, hb, hn⟩

theorem rdropWhile_append_cons_of_not {p : Char → Bool} (x y : Str) (z : Char)
    (hz : p z = false) :
    List.rdropWhile p (x ++ z :: y) = x ++ z :: List.rdropWhile p y := by
  unfold List.rdropWhile
  have e : (x ++ z :: y).reverse = y.reverse ++ z :: x.reverse := by simp
  rw [e, List.dropWhile_append]
  by_cases he : (List.dropWhile p y.reverse).isEmpty = true
  · rw [if_pos he]
    rw [List.isEmpty_iff] at he
    rw [he, List.dropWhile_cons_of_neg (by simp [hz])]
    simp
  · rw [if_neg he]
    simp

theorem TrimSpace_append_cons_of_not (p s : Str) (z : Char) (hz : isSpace z = false)
    (hp : List.dropWhile isSpace p ≠ []) :
    TrimSpace (p ++ z :: s) =
      List.dropWhile isSpace p ++ z :: List.rdropWhile isSpace s := by
  unfold TrimSpace
  rw [List.dropWhile_append]
  have he : ¬ ((List.dropWhile isSpace p).isEmpty = true) := by
    rw [List.isEmpty_iff]; exact hp
  rw [if_neg he, rdropWhile_append_cons_of_not _ _ _ hz]

/-! ## Claims -/

/-- C1: for a registered rule `R` (a method name, hence trimmed and free of parentheses)
of declared arity `k ≥ 1` and `k` argument texts without `,` and `)` on whose trimmed
forms `magic` succeeds against the parameter types from position 2 on, `parseFunc` on
`R(a1,...,ak)`, with any white space around the token, after the name and around each
argument, returns no error and the descriptor named `R` whose parameters are the
coerced arguments in source order followed by `R`. -/
theorem parseFunc_call_descriptor (E : Env) (hE : E.funcs.MethodNames)
    (R : Str) (fn : FuncValue) (hR : E.funcs.get? R = some fn)
    (k : Nat) (hk : 1 ≤ k) (harity : numIn E R = ((k : Int), none))
    (args : List Str) (hlen : args.length = k)
    (hargs : ∀ a ∈ args, ',' ∉ a ∧ ')' ∉ a)
    (hmagic : ∀ ta ∈ List.zip (fn.In.drop 2) (args.map TrimSpace), (magic E ta.1 ta.2).2 = none)
    (pads : List (Str × Str)) (hpl : pads.length = k)
    (hpads : ∀ w ∈ pads, allSpace w.1 ∧ allSpace w.2)
    (pre mid post : Str) (hpre : allSpace pre) (hmid : allSpace mid) (hpost : allSpace post) :
    parseFunc E (pre ++ R ++ mid ++
        '(' :: List.intercalate [','] (List.zipWith (fun a w => w.1 ++ a ++ w.2) args pads) ++
        ')' :: post) =
      .ret (⟨R, List.zipWith (fun t a => (magic E t a).1) (fn.In.drop 2) (args.map TrimSpace) ++
        [.str R]⟩, none) := by
  have hid := registered_isIdentifier hE hR
  have hRne := isIdentifier_ne_nil hid
  set raw := List.zipWith (fun a w => w.1 ++ a ++ w.2) args pads with hraw
  have hrawlen : raw.length = k := by
    rw [hraw, List.length_zipWith, hlen, hpl, Nat.min_self]
  have hrawmap : raw.map TrimSpace = args.map TrimSpace :=
    padded_map_TrimSpace args pads hpads (by rw [hlen, hpl])
  have hrawc : ∀ r ∈ raw, ',' ∉ r :=
    padded_not_mem ',' (by decide) args pads hpads (fun a ha => (hargs a ha).1)
  have hrawp : ∀ r ∈ raw, ')' ∉ r :=
    padded_not_mem ')' (by decide) args pads hpads (fun a ha => (hargs a ha).2)
  have hbodyp : ')' ∉ List.intercalate [','] raw := by
    exact not_mem_intercalate ')' ',' (by decide) raw hrawp
  have hfnlen : args.length + 3 = fn.In.length := by
    unfold numIn at harity
    rw [hR] at harity
    simp only [Prod.mk.injEq, and_true] at harity
    omega
  -- the trimmed token
  have hX : TrimSpace (pre ++ R ++ mid ++ '(' :: List.intercalate [','] raw ++ ')' :: post) =
      (R ++ mid) ++ '(' :: List.intercalate [','] raw ++ ')' :: [] := by
    have e1 : pre ++ R ++ mid ++ '(' :: List.intercalate [','] raw ++ ')' :: post =
        pre ++ ((R ++ mid) ++ '(' :: List.intercalate [','] raw ++ ')' :: []) ++ post := by
      simp
    rw [e1, TrimSpace_pad _ _ _ hpre hpost]
    apply TrimSpace_eq_self
    · intro c hc
      obtain ⟨r, rs, rfl⟩ := List.exists_cons_of_ne_nil hRne
      simp only [List.cons_append, List.head?_cons, Option.some.injEq] at hc
      subst hc
      exact identChar_not_space (isIdentifier_identChar hid r (List.mem_cons_self _ _))
    · intro c hc
      rw [List.getLast?_concat] at hc
      simp only [Option.some.injEq] at hc
      subst hc
      decide
  have hname : TrimSpace (R ++ mid) = R := by
    have := TrimSpace_pad [] R mid (by intro c hc; simp at hc) hmid
    simp only [List.nil_append] at this
    rw [this, TrimSpace_identifier hid]
  have ha1 : '(' ∉ R ++ mid := by
    simp only [List.mem_append, not_or]
    exact ⟨isIdentifier_not_mem hid (by decide), not_mem_of_allSpace hmid (by decide)⟩
  have ha2 : ')' ∉ R ++ mid := by
    simp only [List.mem_append, not_or]
    exact ⟨isIdentifier_not_mem hid (by decide), not_mem_of_allSpace hmid (by decide)⟩
  have hsplit : Split (List.intercalate [','] raw) ',' = raw := by
    obtain ⟨p, ps, hps⟩ := List.exists_cons_of_ne_nil
      (List.ne_nil_of_length_pos (by omega : 0 < raw.length))
    rw [hps] at hrawc ⊢
    exact Split_intercalate p ps ',' hrawc
  have htrim := trim_ok E R fn raw hR (by omega)
    ((zip_map_TrimSpace_magic E _ raw).mpr (by rw [hrawmap]; exact hmagic))
  rw [zipWith_map_TrimSpace_magic, hrawmap] at htrim
  unfold parseFunc
  rw [parseFuncBody_paren E _ (R ++ mid) (List.intercalate [','] raw) [] hX ha1 ha2 hbodyp]
  simp only [hname, harity, hsplit, hrawlen, ne_eq, not_true_eq_false, if_false, htrim]
  rfl

/-- Witness of C1: the token ` Range ( 1,20 )` against the example registry. -/
theorem parseFunc_call_descriptor_witness :
    parseFunc exampleEnv " Range ( 1,20 )".toList =
      .ret (⟨"Range".toList, [.int 1, .int 20, .str "Range".toList]⟩, none) :=
  parseFunc_call_descriptor exampleEnv (by decide) "Range".toList (method [tInt, tInt] passed)
    rfl 2 (by decide) rfl ["1".toList, "20".toList] rfl (by decide) (by decide)
    [(" ".toList, []), ([], " ".toList)] rfl (by decide) " ".toList " ".toList []
    (by decide) (by decide) (by decide)


/-- C2: for a rule name `R` registered with declared arity 0 and containing no `(` and
no `;`, `getValidFuncs` on the tag `R` returns no error and exactly one descriptor, named
`R`, whose parameter list is just the trailing marker `R`. -/
theorem getValidFuncs_zero_arity (E : Env) (hE : E.funcs.MethodNames) (R : Str)
    (harity : numIn E R = (0, none)) (hopen : '(' ∉ R) (hsemi : ';' ∉ R) :
    getValidFuncs E R = .ret ([⟨R, [.str R]⟩], none) := by
  have hreg : ∃ fn, E.funcs.get? R = some fn := by
    cases h : E.funcs.get? R with
    | none => rw [numIn_of_none h] at harity; simp at harity
    | some fn => exact ⟨fn, rfl⟩
  obtain ⟨fn, hfn⟩ := hreg
  have hid := registered_isIdentifier hE hfn
  have htrim := TrimSpace_identifier hid
  have hlen : ¬ (R.length = 0) := by
    intro h0
    exact isIdentifier_ne_nil hid (List.length_eq_zero.mp h0)
  have hparse : parseFunc E R = .ret (⟨R, [.str R]⟩, none) := by
    unfold parseFunc
    rw [parseFuncBody_plain E R (by rw [htrim]; exact hopen), htrim, harity]
    rfl
  unfold getValidFuncs
  rw [if_neg hlen, Split_of_not_mem R ';' hsemi]
  simp only [getValidFuncsLoop, hparse, List.nil_append]

/-- Witness of C2: the tag `Required` against the example registry. -/
theorem getValidFuncs_zero_arity_witness :
    getValidFuncs exampleEnv "Required".toList =
      .ret ([⟨"Required".toList, [.str "Required".toList]⟩], none) :=
  getValidFuncs_zero_arity exampleEnv (by decide) "Required".toList rfl (by decide) (by decide)

/-- C3, as stated, fails: on the white-space tag of three blanks `getValidFuncs` returns the
not-found error for the empty rule name. -/
theorem getValidFuncs_blank_tag_errors :
    allSpace "   ".toList ∧
      getValidFuncs exampleEnv "   ".toList = .ret ([], some (.notFound [])) ∧
      getValidFuncs exampleEnv "   ".toList ≠ .ret ([], none) := by
  decide

/-- C3, amended: `getValidFuncs` on the empty tag returns no descriptor and no error; on a
non-empty tag of white space it returns no descriptor together with the not-found error
for the empty rule name. -/
theorem getValidFuncs_empty_or_blank (E : Env) (hE : E.funcs.MethodNames) :
    getValidFuncs E [] = .ret ([], none) ∧
      ∀ tag : Str, tag ≠ [] → allSpace tag →
        getValidFuncs E tag = .ret ([], some (.notFound [])) := by
  refine ⟨rfl, ?_⟩
  intro tag hne hsp
  have hnone : E.funcs.get? [] = none := by
    cases h : E.funcs.get? [] with
    | none => rfl
    | some fn => exact absurd (registered_isIdentifier hE h) (by decide)
  have htrim : TrimSpace tag = [] := TrimSpace_of_all_space tag hsp
  have hparse : parseFunc E tag = .ret (ValidFunc.zero, some (.notFound [])) := by
    unfold parseFunc
    rw [parseFuncBody_plain E tag (by rw [htrim]; simp), htrim, numIn_of_none hnone]
    rfl
  have hlen : ¬ (tag.length = 0) := fun h0 => hne (List.length_eq_zero.mp h0)
  unfold getValidFuncs
  rw [if_neg hlen, Split_of_not_mem tag ';' (not_mem_of_allSpace hsp (by decide))]
  simp only [getValidFuncsLoop, hparse]

/-- Witness of the amended C3: the tag of three blanks against the example registry. -/
theorem getValidFuncs_empty_or_blank_witness :
    getValidFuncs exampleEnv "   ".toList = .ret ([], some (.notFound [])) :=
  (getValidFuncs_empty_or_blank exampleEnv (by decide)).2 "   ".toList (by decide) (by decide)


/-- C4: when the rule name of a token (the whole trimmed token without a `(`, otherwise
the trimmed text before the first `(`, a `)` occurring in the token) is not a key of the
registry, `parseFunc` fails with the not-found error naming it, whatever arguments the
token supplies and whatever their number: no arity check or coercion comes first. In
particular `Nope` fails with the not-found error for `Nope` when it is not registered. -/
theorem parseFunc_not_found (E : Env) (tok : Str) (hclose : '(' ∈ tok → ')' ∈ tok)
    (hun : E.funcs.get? (ruleName tok) = none) :
    parseFunc E tok = .ret (ValidFunc.zero, some (.notFound (ruleName tok))) := by
  unfold parseFunc
  by_cases hopen : '(' ∈ TrimSpace tok
  · have hc : ')' ∈ TrimSpace tok :=
      (mem_TrimSpace_iff (by decide) tok).mpr
        (hclose ((mem_TrimSpace_iff (by decide) tok).mp hopen))
    obtain ⟨a, b, hab, ha⟩ := List.eq_append_cons_of_mem hopen
    rw [ruleName_of_open tok a b hab ha] at hun ⊢
    rw [parseFuncBody_open E tok a b hab ha hc, numIn_of_none hun]
    rfl
  · rw [ruleName_of_plain tok hopen] at hun ⊢
    rw [parseFuncBody_plain E tok hopen, numIn_of_none hun]
    rfl

/-- Witness of C4: `Nope` and `Nope(1,2,3)` against the example registry. -/
theorem parseFunc_not_found_witness :
    parseFunc exampleEnv "Nope".toList = .ret (ValidFunc.zero, some (.notFound "Nope".toList)) ∧
      parseFunc exampleEnv "Nope(1,2,3)".toList =
        .ret (ValidFunc.zero, some (.notFound "Nope".toList)) :=
  ⟨parseFunc_not_found exampleEnv "Nope".toList (by decide) rfl,
    parseFunc_not_found exampleEnv "Nope(1,2,3)".toList (by decide) rfl⟩

/-- C7: on a token with a `(` and no `)`, `parseFunc` fails with the error
"invalid valid function" and yields no descriptor, whether or not the name before the
`(` is registered. -/
theorem parseFunc_unclosed (E : Env) (tok : Str) (hopen : '(' ∈ tok) (hclose : ')' ∉ tok) :
    parseFunc E tok = .ret (ValidFunc.zero, some .invalidFunc) := by
  have h1 : ¬ (Index (TrimSpace tok) '(' = -1) := by
    rw [Index_eq_neg_one_iff]
    exact fun hn => hn ((mem_TrimSpace_iff (by decide) tok).mpr hopen)
  have h2 : Index (TrimSpace tok) ')' = -1 :=
    Index_of_not_mem (fun hm => hclose ((mem_TrimSpace_iff (by decide) tok).mp hm))
  unfold parseFunc parseFuncBody
  simp only [if_neg h1, h2, if_true]
  rfl

/-- Witness of C7: `MaxLen(10` (registered name) and `Nope(` (unregistered name). -/
theorem parseFunc_unclosed_witness :
    parseFunc exampleEnv "MaxLen(10".toList = .ret (ValidFunc.zero, some .invalidFunc) ∧
      parseFunc exampleEnv " Nope( ".toList = .ret (ValidFunc.zero, some .invalidFunc) :=
  ⟨parseFunc_unclosed exampleEnv "MaxLen(10".toList (by decide) (by decide),
    parseFunc_unclosed exampleEnv " Nope( ".toList (by decide) (by decide)⟩


/-- C5: for a token whose rule name is registered, `parseFunc` fails with the error
"R require n parameters", `n` the declared arity `numIn(R)`, whenever the number of
supplied raw arguments differs from `n`; the supplied count is 0 for a token without
`(` and otherwise the number of comma-separated pieces of the text between the first
`(` and the first `)` (a `)` occurring in the token). The error is the arity error
whatever the argument texts are: none is coerced. -/
theorem parseFunc_arity_mismatch (E : Env) (hE : E.funcs.MethodNames) (tok : Str)
    (fn : FuncValue) (hR : E.funcs.get? (ruleName tok) = some fn)
    (hclose : '(' ∈ tok → ')' ∈ tok)
    (hne : (suppliedCount tok : Int) ≠ (numIn E (ruleName tok)).1) :
    parseFunc E tok =
      .ret (ValidFunc.zero, some (.require (ruleName tok) (numIn E (ruleName tok)).1)) := by
  unfold parseFunc
  by_cases hopen : '(' ∈ TrimSpace tok
  · have hc : ')' ∈ TrimSpace tok :=
      (mem_TrimSpace_iff (by decide) tok).mpr
        (hclose ((mem_TrimSpace_iff (by decide) tok).mp hopen))
    obtain ⟨a, b, e, hshape, ha1, ha2, hb, hname, harg⟩ :=
      token_shape E hE tok fn hR hopen hc
    have hcount : suppliedCount tok = (Split b ',').length := by
      unfold suppliedCount
      rw [if_pos hopen, harg]
    rw [hcount, hname] at hne
    rw [hname] at hR ⊢
    rw [parseFuncBody_paren E tok a b e hshape ha1 ha2 hb]
    rw [numIn_of_get? hR] at hne ⊢
    simp only [ne_eq] at hne ⊢
    rw [if_pos (fun h => hne h.symm)]
    rfl
  · have hcount : suppliedCount tok = 0 := by
      unfold suppliedCount
      rw [if_neg hopen]
    rw [hcount, ruleName_of_plain tok hopen] at hne
    rw [ruleName_of_plain tok hopen] at hR ⊢
    rw [parseFuncBody_plain E tok hopen]
    rw [numIn_of_get? hR] at hne ⊢
    simp only [ne_eq, Nat.cast_zero] at hne ⊢
    rw [if_pos (fun h => hne h.symm)]
    rfl

/-- Witness of C5: `Range(x)` supplies one argument for arity 2 (and `x` is no integer),
`MaxLen` supplies none for arity 1. -/
theorem parseFunc_arity_mismatch_witness :
    parseFunc exampleEnv "Range(x)".toList =
        .ret (ValidFunc.zero, some (.require "Range".toList 2)) ∧
      parseFunc exampleEnv "MaxLen".toList =
        .ret (ValidFunc.zero, some (.require "MaxLen".toList 1)) :=
  ⟨parseFunc_arity_mismatch exampleEnv (by decide) "Range(x)".toList
      (method [tInt, tInt] passed) rfl (by decide) (by decide),
    parseFunc_arity_mismatch exampleEnv (by decide) "MaxLen".toList
      (method [tInt] passed) rfl (by decide) (by decide)⟩

/-- C6, as stated, fails: `MaxLen()` does not fail with the arity error but with the
numeric-format error for the empty text. -/
theorem parseFunc_MaxLen_empty_parens :
    numIn exampleEnv "MaxLen".toList = (1, none) ∧
      parseFunc exampleEnv "MaxLen()".toList =
        .ret (ValidFunc.zero, some (.numError [] .ErrSyntax)) ∧
      parseFunc exampleEnv "MaxLen()".toList ≠
        .ret (ValidFunc.zero, some (.require "MaxLen".toList 1)) := by
  decide

/-- C6, amended: with `MaxLen` registered with declared arity 1 and an integer argument,
`MaxLen(1,2)` fails with the arity error naming `MaxLen` and the count 1, while
`MaxLen()` supplies one empty argument, passes the arity check and fails with the
numeric-format error of `strconv.Atoi` on the empty text. -/
theorem parseFunc_MaxLen (E : Env) (fn : FuncValue) (t : RType)
    (hfn : E.funcs.get? "MaxLen".toList = some fn)
    (harity : numIn E "MaxLen".toList = (1, none))
    (hint : fn.In[2]? = some t) (hkind : t.Kind = .Int) :
    parseFunc E "MaxLen(1,2)".toList =
        .ret (ValidFunc.zero, some (.require "MaxLen".toList 1)) ∧
      parseFunc E "MaxLen()".toList =
        .ret (ValidFunc.zero, some (.numError [] .ErrSyntax)) := by
  have hname : TrimSpace "MaxLen".toList = "MaxLen".toList := by decide
  constructor
  · unfold parseFunc
    rw [parseFuncBody_paren E "MaxLen(1,2)".toList "MaxLen".toList "1,2".toList []
      (by decide) (by decide) (by decide) (by decide), hname, harity]
    rfl
  · have hmag : magic E t (TrimSpace []) = (.int 0, some (.numError [] .ErrSyntax)) := by
      cases t with
      | ptr e => simp [RType.Kind] at hkind
      | named k s =>
        simp only [RType.Kind] at hkind
        subst hkind
        rfl
    have htrim : trim E "MaxLen".toList [[]] =
        .ret ([Value.nil], some (.numError [] .ErrSyntax)) := by
      unfold trim
      simp only [hfn, trimLoop, Nat.zero_add, hint, hmag]
      rfl
    unfold parseFunc
    rw [parseFuncBody_paren E "MaxLen()".toList "MaxLen".toList [] []
      (by decide) (by decide) (by decide) (by decide), hname, harity]
    have hs : Split [] ',' = [[]] := rfl
    simp only [hs, htrim]
    rfl

/-- Witness of the amended C6: the example registry. -/
theorem parseFunc_MaxLen_witness :
    parseFunc exampleEnv "MaxLen(1,2)".toList =
        .ret (ValidFunc.zero, some (.require "MaxLen".toList 1)) ∧
      parseFunc exampleEnv "MaxLen()".toList =
        .ret (ValidFunc.zero, some (.numError [] .ErrSyntax)) :=
  parseFunc_MaxLen exampleEnv (method [tInt] passed) tInt rfl rfl rfl rfl


/-- C8, at failing inputs: the validator of `Strict` panics with a string, and the
invocation of `MaxLen` with a string for its integer parameter makes `reflect` panic
with a string; in both cases `Funcs.Call` does not return an error: the panic of the
failed assertion `r.(error)` in its deferred function leaves it. -/
theorem Call_non_error_panic_escapes :
    Funcs.Call exampleFuncs "Strict".toList [exampleCtx, .int 3, .str "Strict".toList] =
        .panic (.error (.runtime .typeAssertion)) ∧
      Funcs.Call exampleFuncs "MaxLen".toList
          [exampleCtx, .int 3, .str "ten".toList, .str "MaxLen".toList] =
        .panic (.error (.runtime .typeAssertion)) := by
  decide

/-- C9: for every descriptor `vf` that `parseFunc` returns without error, the list
`mergeParam(v, obj, vf.Params)` passes both checks of `Funcs.Call` for `vf.Name`: the
name is a key of the registry and the length of the list is the number of parameters
of the callable; so the call is what recovery makes of invoking the callable, not the
not-found or the arity error of `Funcs.Call`. -/
theorem parsed_descriptor_passes_checks (E : Env) (tok : Str) (vf : ValidFunc)
    (h : parseFunc E tok = .ret (vf, none)) (v obj : Value) :
    ∃ fn, E.funcs.get? vf.Name = some fn ∧
      (mergeParam v obj vf.Params).length = fn.In.length ∧
      Funcs.Call E.funcs vf.Name (mergeParam v obj vf.Params) =
        deferRecover [] (Funcs.invoke fn (mergeParam v obj vf.Params)) := by
  have key : ∃ fn, E.funcs.get? vf.Name = some fn ∧
      (mergeParam v obj vf.Params).length = fn.In.length := by
    have hb := deferRecover_eq_ret_none _ _ _ h
    by_cases hopen : '(' ∈ TrimSpace tok
    · by_cases hclose : ')' ∈ TrimSpace tok
      · obtain ⟨a, b, hab, ha⟩ := List.eq_append_cons_of_mem hopen
        rw [parseFuncBody_open E tok a b hab ha hclose] at hb
        cases hfn : E.funcs.get? (TrimSpace a) with
        | none => rw [numIn_of_none hfn] at hb; simp at hb
        | some fn =>
          rw [numIn_of_get? hfn] at hb
          simp only [] at hb
          cases hs : slice (TrimSpace tok) ((a.length : Int) + 1) (Index (TrimSpace tok) ')') with
          | none => rw [hs] at hb; simp at hb
          | some args =>
            rw [hs] at hb
            simp only [] at hb
            by_cases hnum : (fn.In.length : Int) - 3 = ((Split args ',').length : Int)
            · rw [if_neg (by simpa using hnum)] at hb
              cases ht : trim E (TrimSpace a) (Split args ',') with
              | panic p => rw [ht] at hb; simp at hb
              | ret r =>
                obtain ⟨ts, err⟩ := r
                rw [ht] at hb
                cases err with
                | some e => simp at hb
                | none =>
                  simp only [Go.ret.injEq, Prod.mk.injEq, and_true] at hb
                  obtain ⟨fn2, hfn2, hlen⟩ := trim_ret_none E _ _ _ ht
                  rw [hfn] at hfn2
                  simp only [Option.some.injEq] at hfn2
                  subst hfn2
                  subst hb
                  refine ⟨fn, hfn, ?_⟩
                  simp only [mergeParam, List.length_append, List.length_cons,
                    List.length_nil, hlen]
                  omega
            · rw [if_pos (by simpa using hnum)] at hb
              simp at hb
      · have h1 : ¬ (Index (TrimSpace tok) '(' = -1) := by
          rw [Index_eq_neg_one_iff]; exact fun hn => hn hopen
        unfold parseFuncBody at hb
        simp only [if_neg h1, Index_of_not_mem hclose, if_true] at hb
        simp at hb
    · rw [parseFuncBody_plain E tok hopen] at hb
      cases hfn : E.funcs.get? (TrimSpace tok) with
      | none => rw [numIn_of_none hfn] at hb; simp at hb
      | some fn =>
        rw [numIn_of_get? hfn] at hb
        simp only [] at hb
        by_cases hnum : (fn.In.length : Int) - 3 = 0
        · rw [if_neg (by simpa using hnum)] at hb
          simp only [Go.ret.injEq, Prod.mk.injEq, and_true] at hb
          subst hb
          refine ⟨fn, hfn, ?_⟩
          simp only [mergeParam, List.length_append, List.length_cons, List.length_nil]
          omega
        · rw [if_pos (by simpa using hnum)] at hb
          simp at hb
  obtain ⟨fn, hfn, hlen⟩ := key
  exact ⟨fn, hfn, hlen, Funcs.Call_of_checks _ _ fn _ hfn hlen⟩

/-- Witness of C9: the descriptor of `Range(1, 20)` dispatches to the validator. -/
theorem parsed_descriptor_passes_checks_witness :
    ∃ fn, exampleEnv.funcs.get? "Range".toList = some fn ∧
      (mergeParam exampleCtx (.int 7) [.int 1, .int 20, .str "Range".toList]).length =
        fn.In.length ∧
      Funcs.Call exampleEnv.funcs "Range".toList
          (mergeParam exampleCtx (.int 7) [.int 1, .int 20, .str "Range".toList]) =
        deferRecover [] (Funcs.invoke fn
          (mergeParam exampleCtx (.int 7) [.int 1, .int 20, .str "Range".toList])) :=
  parsed_descriptor_passes_checks exampleEnv "Range(1, 20)".toList
    ⟨"Range".toList, [.int 1, .int 20, .str "Range".toList]⟩ (by decide) exampleCtx (.int 7)

/-- C10, as stated, fails: for `Required`, of declared arity 0, the invocation list
`[context, value]` with no further argument is rejected with the arity error. -/
theorem Call_arity_not_numIn :
    ¬ (Funcs.Call exampleEnv.funcs "Required".toList ([exampleCtx, .int 7] ++ []) =
          .ret ([], some .notAdapted) ↔
        ((([] : List Value).length : Int) ≠ (numIn exampleEnv "Required".toList).1)) := by
  decide

/-- C10, amended: for a registered rule and an invocation list
`[context, value] ++ coercedArgs`, `Funcs.Call` returns its arity error if and only if
the length of `coercedArgs` differs from the declared arity `numIn` plus one, that is, if
the list is not as long as the callable has parameters (`coercedArgs` includes the
trailing key); the callable is taken not to panic with that very error itself. -/
theorem Call_arity_error_iff (E : Env) (name : Str) (fn : FuncValue)
    (hfn : E.funcs.get? name = some fn) (ctx obj : Value) (coercedArgs : List Value)
    (hown : fn.Call ([ctx, obj] ++ coercedArgs) ≠ .panic (.error .notAdapted)) :
    Funcs.Call E.funcs name ([ctx, obj] ++ coercedArgs) = .ret ([], some .notAdapted) ↔
      (coercedArgs.length : Int) ≠ (numIn E name).1 + 1 := by
  rw [numIn_of_get? hfn]
  constructor
  · intro hcall hlen
    have hl : ([ctx, obj] ++ coercedArgs).length = fn.In.length := by
      simp only [List.length_append, List.length_cons, List.length_nil]
      simp only [] at hlen
      omega
    rw [Funcs.Call_of_checks _ _ fn _ hfn hl] at hcall
    unfold Funcs.invoke at hcall
    cases hc : fn.Call ([ctx, obj] ++ coercedArgs) with
    | ret r => rw [hc] at hcall; simp [deferRecover] at hcall
    | panic p =>
      rw [hc] at hcall
      cases p with
      | value w => simp [deferRecover] at hcall
      | error e =>
        simp only [deferRecover, Go.ret.injEq, Prod.mk.injEq, true_and,
          Option.some.injEq] at hcall
        subst hcall
        exact hown hc
  · intro hlen
    apply Funcs.Call_of_mismatch _ _ fn _ hfn
    intro hl
    apply hlen
    simp only [List.length_append, List.length_cons, List.length_nil] at hl
    simp only []
    omega

/-- Witness of the amended C10: `Required` with no argument after `[context, value]`. -/
theorem Call_arity_error_iff_witness :
    Funcs.Call exampleEnv.funcs "Required".toList ([exampleCtx, .int 7] ++ []) =
        .ret ([], some .notAdapted) ↔
      ((([] : List Value).length : Int) ≠ (numIn exampleEnv "Required".toList).1 + 1) :=
  Call_arity_error_iff exampleEnv "Required".toList (method [] passed) rfl exampleCtx (.int 7) []
    (by decide)

/-- C11, as stated, fails: `MaxLen(obj, n int, key)` has 4 parameters with its receiver,
and `numIn` reports 1, not 4 - 2. -/
theorem numIn_not_minus_two :
    exampleEnv.funcs.get? "MaxLen".toList = some (method [tInt] passed) ∧
      (numIn exampleEnv "MaxLen".toList).1 ≠ ((method [tInt] passed).In.length : Int) - 2 :=
  ⟨rfl, by decide⟩

/-- C11, amended: for every registered rule name, `numIn` returns no error and the
number of parameters of the callable minus 3: the receiver, the value under
validation and the trailing key are not counted. -/
theorem numIn_registered (E : Env) (name : Str) (fn : FuncValue)
    (h : E.funcs.get? name = some fn) :
    numIn E name = ((fn.In.length : Int) - 3, none) :=
  numIn_of_get? h

/-- Witness of the amended C11: `Range(obj, min, max int, key)` has declared arity 2. -/
theorem numIn_registered_witness :
    numIn exampleEnv "Range".toList = ((5 : Int) - 3, none) :=
  numIn_registered exampleEnv "Range".toList (method [tInt, tInt] passed) rfl

/-- C13: for a target of kind `String`, `magic` returns its input text unchanged and
no error, for every text: nothing is trimmed or unescaped. -/
theorem magic_string (E : Env) (t : RType) (s : Str) (h : t.Kind = .String) :
    magic E t s = (.str s, none) := by
  cases t with
  | ptr e => simp [RType.Kind] at h
  | named k name =>
    simp only [RType.Kind] at h
    subst h
    rfl

/-- Witness of C13: a text with blanks around it and a backslash escape in it. -/
theorem magic_string_witness :
    magic exampleEnv tString " a\\n ".toList = (.str " a\\n ".toList, none) :=
  magic_string exampleEnv tString " a\\n ".toList rfl

/-- C14, as stated, fails: a pointer to a type of kind `Int` whose `String()` is
`regexp.Regexp` is not a pointer to the compiled-pattern type, and `magic` accepts
it. -/
theorem magic_accepts_namesake :
    (RType.ptr (.named .Int "regexp.Regexp".toList)).Kind ≠ .Int ∧
      (RType.ptr (.named .Int "regexp.Regexp".toList)).Kind ≠ .String ∧
      RType.ptr (.named .Int "regexp.Regexp".toList) ≠ tRegexp ∧
      magic exampleEnv (.ptr (.named .Int "regexp.Regexp".toList)) "a+".toList =
        (.regexp "a+".toList, none) := by
  decide

/-- C14, amended: `magic` returns an unsupported-type error, and then the nil value,
for every target that is not of kind `Int`, not of kind `String` and not a pointer to
a type whose `String()` is `regexp.Regexp` (the compiled-pattern type or a namesake),
pointers to any other type included, and for every text; for the other targets it never
returns an unsupported-type error. -/
theorem magic_unsupported (E : Env) (t : RType) (s : Str) :
    ((t.Kind ≠ .Int ∧ t.Kind ≠ .String ∧
          ¬ (∃ e, t = .ptr e ∧ e.String = "regexp.Regexp".toList)) →
        ∃ w, magic E t s = (.nil, some (.unsupported w))) ∧
      (¬ (t.Kind ≠ .Int ∧ t.Kind ≠ .String ∧
          ¬ (∃ e, t = .ptr e ∧ e.String = "regexp.Regexp".toList)) →
        ∀ w, (magic E t s).2 ≠ some (.unsupported w)) := by
  cases t with
  | ptr e =>
    by_cases he : e.String = "regexp.Regexp".toList
    · constructor
      · intro h
        exact absurd ⟨e, rfl, he⟩ h.2.2
      · intro _ w
        unfold magic
        simp only [he, ne_eq, not_true_eq_false, if_false]
        cases E.regexpError s <;> simp
    · constructor
      · intro _
        exact ⟨e.String, by unfold magic; simp only [ne_eq, he, not_false_eq_true, if_true]⟩
      · intro h
        exfalso
        apply h
        refine ⟨by simp [RType.Kind], by simp [RType.Kind], ?_⟩
        rintro ⟨e2, h2, h3⟩
        cases h2
        exact he h3
  | named k name =>
    constructor
    · intro h
      simp only [RType.Kind] at h
      refine ⟨k.text, ?_⟩
      cases k <;> first | rfl | exact absurd rfl h.1 | exact absurd rfl h.2.1
    · intro h w
      have hk : k = .Int ∨ k = .String := by
        by_contra hn
        apply h
        simp only [RType.Kind]
        exact ⟨fun e => hn (Or.inl e), fun e => hn (Or.inr e), by rintro ⟨e, he, _⟩; cases he⟩
      rcases hk with rfl | rfl
      · show (Atoi s).2 ≠ _
        rcases Atoi_err s with h0 | ⟨kind, h1⟩
        · rw [h0]; simp
        · rw [h1]; simp
      · simp [magic]


/-- Witness of the amended C14: a pointer to `int` is not supported, and `int` is. -/
theorem magic_unsupported_witness :
    (∃ w, magic exampleEnv (.ptr tInt) "7".toList = (.nil, some (.unsupported w))) ∧
      ∀ w, (magic exampleEnv tInt "7".toList).2 ≠ some (.unsupported w) :=
  ⟨(magic_unsupported exampleEnv (.ptr tInt) "7".toList).1
      ⟨by decide, by decide, by
        rintro ⟨e, h1, h2⟩
        cases h1
        exact absurd h2 (by decide)⟩,
    (magic_unsupported exampleEnv tInt "7".toList).2 (fun h => h.1 rfl)⟩

/-- C12: for a target of kind `Int`, `magic` reads the text as a signed decimal
integer. On the decimal text of an integer `n` of the `int` range, also after a `+`
for `n ≥ 0`, it returns `n` and no error (`42` for the text `42`); on the decimal text
of an integer out of that range it returns the nearest `int` with `strconv.ErrRange`;
and on a text that is not an optionally signed non-empty run of decimal digits (`abc`,
the empty text) it returns a `*strconv.NumError`, the numeric-format error: with the
value 0 and `ErrSyntax`, unless the digits in front of the first other character
already write a number beyond `uint64`, when it is `ErrRange` with the nearest
`int`. -/
theorem magic_int (E : Env) (t : RType) (ht : t.Kind = .Int) :
    (∀ n : Int, inIntRange n → magic E t (decimalText n) = (.int n, none)) ∧
      (∀ n : Int, 0 ≤ n → inIntRange n →
        magic E t ('+' :: decimalText n) = (.int n, none)) ∧
      (∀ n : Int, ¬ inIntRange n →
        magic E t (decimalText n) =
          (.int (clampedInt (decimalText n)), some (.numError (decimalText n) .ErrRange))) ∧
      (∀ s : Str, isDecimal s = false →
        (∃ kind, (magic E t s).2 = some (.numError s kind)) ∧
          magic E t s =
            if digitsValue ((unsignedPart s).takeWhile isDigit) 0 ≤ maxUint64 then
              (.int 0, some (.numError s .ErrSyntax))
            else (.int (clampedInt s), some (.numError s .ErrRange))) := by
  cases t with
  | ptr e => simp [RType.Kind] at ht
  | named k name =>
    simp only [RType.Kind] at ht
    subst ht
    refine ⟨?_, ?_, ?_, ?_⟩
    · intro n hn
      show (Value.int (Atoi (decimalText n)).1, (Atoi (decimalText n)).2) = _
      rw [Atoi_decimalText n hn]
    · intro n h0 hn
      show (Value.int (Atoi ('+' :: decimalText n)).1, (Atoi ('+' :: decimalText n)).2) = _
      rw [Atoi_plus_decimalText n h0 hn]
    · intro n hn
      show (Value.int (Atoi (decimalText n)).1, (Atoi (decimalText n)).2) = _
      rw [Atoi_decimalText_out n hn]
    · intro s hs
      have key : magic E (.named .Int name) s =
          if digitsValue ((unsignedPart s).takeWhile isDigit) 0 ≤ maxUint64 then
            (.int 0, some (.numError s .ErrSyntax))
          else (.int (clampedInt s), some (.numError s .ErrRange)) := by
        show (Value.int (Atoi s).1, (Atoi s).2) = _
        rw [Atoi_not_decimal s hs]
        split <;> rfl
      refine ⟨?_, key⟩
      rw [key]
      split
      · exact ⟨_, rfl⟩
      · exact ⟨_, rfl⟩

/-- Witness of C12: the texts `42`, `-7`, `+5`, the least integer beyond the `int`
range, `abc`, the empty text, and a text whose twenty digits overflow `uint64` before
its last character, which is no digit. -/
theorem magic_int_witness :
    magic exampleEnv tInt "42".toList = (.int 42, none) ∧
      magic exampleEnv tInt "-7".toList = (.int (-7), none) ∧
      magic exampleEnv tInt "+5".toList = (.int 5, none) ∧
      magic exampleEnv tInt "9223372036854775808".toList =
        (.int 9223372036854775807,
          some (.numError "9223372036854775808".toList .ErrRange)) ∧
      magic exampleEnv tInt "abc".toList = (.int 0, some (.numError "abc".toList .ErrSyntax)) ∧
      magic exampleEnv tInt [] = (.int 0, some (.numError [] .ErrSyntax)) ∧
      magic exampleEnv tInt "99999999999999999999x".toList =
        (.int 9223372036854775807,
          some (.numError "99999999999999999999x".toList .ErrRange)) := by
  refine ⟨?_, ?_, ?_, ?_, ?_, ?_, ?_⟩
  · exact (magic_int exampleEnv tInt rfl).1 42 (by decide)
  · exact (magic_int exampleEnv tInt rfl).1 (-7) (by decide)
  · exact (magic_int exampleEnv tInt rfl).2.1 5 (by decide) (by decide)
  · exact (magic_int exampleEnv tInt rfl).2.2.1 9223372036854775808 (by decide)
  · exact ((magic_int exampleEnv tInt rfl).2.2.2 "abc".toList (by decide)).2
  · exact ((magic_int exampleEnv tInt rfl).2.2.2 [] (by decide)).2
  · exact ((magic_int exampleEnv tInt rfl).2.2.2 "99999999999999999999x".toList (by decide)).2

/-- C15: after `init`, run on the methods that `reflect` enumerates for `*Validation`
(their names are distinct), a name is a key of the registry if and only if it is the
name of one of these methods and is not reserved by `unFuncs`, and it maps to the
`Func` of that method; the reserved names are exactly `Clear`, `HasErrors`, `ErrorMap`,
`Error`, `apply`, `Check` and `Valid`. -/
theorem init_registry (methods : List Method) (hnd : (methods.map Method.Name).Nodup) :
    (∀ (name : Str) (fn : FuncValue),
        (init methods).get? name = some fn ↔
          (unFuncsAt name = false ∧ ∃ m ∈ methods, m.Name = name ∧ m.Func = fn)) ∧
      (∀ name : Str, unFuncsAt name = true ↔
        name ∈ ["Clear".toList, "HasErrors".toList, "ErrorMap".toList, "Error".toList,
          "apply".toList, "Check".toList, "Valid".toList]) := by
  constructor
  · intro name fn
    unfold init
    rw [initLoop_get? methods hnd [] name fn]
    simp [Funcs.get?]
  · intro name
    exact lookup_getD_true unFuncs (by decide) name


/-- Witness of C15: of the five example methods, `Clear` and `HasErrors` are left out
and `MaxLen` is registered with its own `Func`. -/
theorem init_registry_witness :
    ((init exampleMethods).get? "MaxLen".toList = some (method [tInt] passed) ↔
        (unFuncsAt "MaxLen".toList = false ∧
          ∃ m ∈ exampleMethods, m.Name = "MaxLen".toList ∧ m.Func = method [tInt] passed)) ∧
      (unFuncsAt "Clear".toList = true ↔
        "Clear".toList ∈ ["Clear".toList, "HasErrors".toList, "ErrorMap".toList,
          "Error".toList, "apply".toList, "Check".toList, "Valid".toList]) :=
  ⟨(init_registry exampleMethods (by decide)).1 "MaxLen".toList (method [tInt] passed),
    (init_registry exampleMethods (by decide)).2 "Clear".toList⟩

/-- C16: for a non-empty tag whose tokens between `;` all parse without error,
`getValidFuncs` returns no error and one descriptor per token, the i-th being the one
`parseFunc` returns for the i-th token: the descriptors come in the order written. -/
theorem getValidFuncs_all_ok (E : Env) (tag : Str) (hne : tag ≠ [])
    (h : ∀ tok ∈ Split tag ';', ∃ vf, parseFunc E tok = .ret (vf, none)) :
    ∃ vfs, getValidFuncs E tag = .ret (vfs, none) ∧
      List.Forall₂ (fun tok vf => parseFunc E tok = .ret (vf, none)) (Split tag ';') vfs := by
  obtain ⟨vfs, hvfs⟩ := all_ok_forall₂ E _ h
  refine ⟨vfs, ?_, hvfs⟩
  have hlen : ¬ (tag.length = 0) := fun h0 => hne (List.length_eq_zero.mp h0)
  unfold getValidFuncs
  rw [if_neg hlen]
  have := getValidFuncsLoop_append E (Split tag ';') vfs [] [] hvfs
  simp only [List.append_nil, List.nil_append] at this
  rw [this]
  rfl

/-- Witness of C16: the tag `Required; Range(1,20) ;Match([a-z]+)`. -/
theorem getValidFuncs_all_ok_witness :
    ∃ vfs, getValidFuncs exampleEnv "Required; Range(1,20) ;Match([a-z]+)".toList =
        .ret (vfs, none) ∧
      List.Forall₂ (fun tok vf => parseFunc exampleEnv tok = .ret (vf, none))
        (Split "Required; Range(1,20) ;Match([a-z]+)".toList ';') vfs :=
  getValidFuncs_all_ok exampleEnv "Required; Range(1,20) ;Match([a-z]+)".toList (by decide)
    (by
      intro tok hm
      rw [show Split "Required; Range(1,20) ;Match([a-z]+)".toList ';' =
        ["Required".toList, " Range(1,20) ".toList, "Match([a-z]+)".toList] by decide] at hm
      simp only [List.mem_cons, List.mem_singleton, List.not_mem_nil, or_false] at hm
      rcases hm with rfl | rfl | rfl
      · exact ⟨⟨"Required".toList, [.str "Required".toList]⟩, by decide⟩
      · exact ⟨⟨"Range".toList, [.int 1, .int 20, .str "Range".toList]⟩, by decide⟩
      · exact ⟨⟨"Match".toList, [.regexp "[a-z]+".toList, .str "Match".toList]⟩, by decide⟩)

/-- C17, as stated, fails: the one token of the empty tag does not parse, and
`getValidFuncs` returns no error for the empty tag. -/
theorem getValidFuncs_empty_tag_no_error :
    Split [] ';' = [[]] ∧
      parseFunc exampleEnv [] = .ret (ValidFunc.zero, some (.notFound [])) ∧
      getValidFuncs exampleEnv [] = .ret ([], none) := by
  decide

/-- C17, amended: for a non-empty tag in which some token between `;` fails to parse,
`getValidFuncs` returns the error of the first failing token together with the
descriptors of the tokens before it, and the result does not depend on the tokens
after that one: every non-empty tag with the same tokens up to it has the same
result. -/
theorem getValidFuncs_first_error (E : Env) (tag : Str) (hne : tag ≠ [])
    (h : ∃ tok ∈ Split tag ';', ∃ v e, parseFunc E tok = .ret (v, some e)) :
    ∃ pre bad later vfs v e, Split tag ';' = pre ++ bad :: later ∧
      List.Forall₂ (fun tok vf => parseFunc E tok = .ret (vf, none)) pre vfs ∧
      parseFunc E bad = .ret (v, some e) ∧
      getValidFuncs E tag = .ret (vfs, some e) ∧
      ∀ (tag2 : Str) (later2 : List Str), tag2 ≠ [] → Split tag2 ';' = pre ++ bad :: later2 →
        getValidFuncs E tag2 = getValidFuncs E tag := by
  obtain ⟨pre, bad, later, vfs, v, e, hs, hpre, hbad⟩ := first_failure E _ h
  have key : ∀ (t : Str) (l : List Str), t ≠ [] → Split t ';' = pre ++ bad :: l →
      getValidFuncs E t = .ret (vfs, some e) := by
    intro t l ht hsplit
    have hlen : ¬ (t.length = 0) := fun h0 => ht (List.length_eq_zero.mp h0)
    unfold getValidFuncs
    rw [if_neg hlen, hsplit, getValidFuncsLoop_append E pre vfs (bad :: l) [] hpre]
    simp only [List.nil_append, getValidFuncsLoop, hbad]
  refine ⟨pre, bad, later, vfs, v, e, hs, hpre, hbad, key tag later hne hs, ?_⟩
  intro tag2 later2 h2 hs2
  rw [key tag2 later2 h2 hs2, key tag later hne hs]

/-- Witness of the amended C17: the second token of `Required;MaxLen(x);Nope` fails. -/
theorem getValidFuncs_first_error_witness :
    ∃ pre bad later vfs v e,
      Split "Required;MaxLen(x);Nope".toList ';' = pre ++ bad :: later ∧
      List.Forall₂ (fun tok vf => parseFunc exampleEnv tok = .ret (vf, none)) pre vfs ∧
      parseFunc exampleEnv bad = .ret (v, some e) ∧
      getValidFuncs exampleEnv "Required;MaxLen(x);Nope".toList = .ret (vfs, some e) ∧
      ∀ (tag2 : Str) (later2 : List Str), tag2 ≠ [] → Split tag2 ';' = pre ++ bad :: later2 →
        getValidFuncs exampleEnv tag2 =
          getValidFuncs exampleEnv "Required;MaxLen(x);Nope".toList :=
  getValidFuncs_first_error exampleEnv "Required;MaxLen(x);Nope".toList (by decide)
    ⟨"MaxLen(x)".toList, by decide, ValidFunc.zero, .numError "x".toList .ErrSyntax, by decide⟩

/-- C18, as stated, fails: for the rule `MinAge(obj, min Age, key)`, whose parameter
at position 2 has the defined type `Age` of kind `Int`, the descriptor of `MinAge(5)`
holds a plain `int`, which is not a value of the type `Age`. -/
theorem parsed_descriptor_not_of_type :
    ageEnv.funcs.get? "MinAge".toList = some (method [tAge] passed) ∧
      (method [tAge] passed).In[2]? = some tAge ∧
      parseFunc ageEnv "MinAge(5)".toList =
        .ret (⟨"MinAge".toList, [.int 5, .str "MinAge".toList]⟩, none) ∧
      (Value.int 5).typeOf ≠ some tAge :=
  ⟨rfl, by decide, by decide, by decide⟩

/-- C18, amended: a descriptor that `parseFunc` returns without error, for a rule `R` of
declared arity `k`, has exactly `k + 1` elements; for `i < k` its i-th element is an
integer for a parameter of kind `Int` at position `i + 2`, a string for one of kind
`String`, a compiled pattern for a pointer parameter, and it is a value of the type
of that parameter when the type is `int`, `string` or `*regexp.Regexp`; and its last
element is the string `R`. -/
theorem parsed_descriptor_shape (E : Env) (tok : Str) (vf : ValidFunc)
    (h : parseFunc E tok = .ret (vf, none)) :
    ∃ (fn : FuncValue) (k : Nat), E.funcs.get? vf.Name = some fn ∧
      numIn E vf.Name = ((k : Int), none) ∧
      vf.Params.length = k + 1 ∧
      vf.Params.getLast? = some (.str vf.Name) ∧
      ∀ i, i < k → ∃ t val, fn.In[i + 2]? = some t ∧ vf.Params[i]? = some val ∧
        val.fits t ∧ ((t = tInt ∨ t = tString ∨ t = tRegexp) → val.typeOf = some t) := by
  obtain ⟨fn, args, hfn, hnum, htrim⟩ := parseFunc_ok_inv E tok vf h
  obtain ⟨fn2, vals, hfn2, hts, hlen, hall⟩ := trim_inv E vf.Name args vf.Params htrim
  rw [hfn] at hfn2
  simp only [Option.some.injEq] at hfn2
  subst hfn2
  refine ⟨fn, args.length, hfn, ?_, ?_, ?_, ?_⟩
  · rw [numIn_of_get? hfn, hnum]
  · rw [hts, List.length_append, hlen]; rfl
  · rw [hts, List.getLast?_concat]
  · intro i hi
    obtain ⟨t, val, x, h1, h2, h3⟩ := hall i hi
    refine ⟨t, val, h1, ?_, magic_fits E t x val h3⟩
    rw [hts, List.getElem?_append_left (by rw [hlen]; exact hi)]
    exact h2

/-- Witness of C18: the descriptor of `Range(1, 20)`. -/
theorem parsed_descriptor_shape_witness :
    ∃ (fn : FuncValue) (k : Nat), exampleEnv.funcs.get? "Range".toList = some fn ∧
      numIn exampleEnv "Range".toList = ((k : Int), none) ∧
      [Value.int 1, .int 20, .str "Range".toList].length = k + 1 ∧
      [Value.int 1, .int 20, .str "Range".toList].getLast? = some (.str "Range".toList) ∧
      ∀ i, i < k → ∃ t val, fn.In[i + 2]? = some t ∧
        [Value.int 1, .int 20, .str "Range".toList][i]? = some val ∧
        val.fits t ∧ ((t = tInt ∨ t = tString ∨ t = tRegexp) → val.typeOf = some t) :=
  parsed_descriptor_shape exampleEnv "Range(1, 20)".toList
    ⟨"Range".toList, [.int 1, .int 20, .str "Range".toList]⟩ (by decide)

/-- C19: when no registered rule name contains a `)`, as holds for method names, no
panic is raised in `parseFunc`, whatever the input text, so that its recovery branch
is not reached: where the text between `(` and `)` is sliced (the name being
registered) the first `)` lies after the first `(`, and `trim`, called on as many
arguments as the declared arity, reads the parameter types at indexes `i + 2` within
bounds and returns. -/
theorem parseFunc_no_fault (E : Env)
    (hnames : ∀ name fn, E.funcs.get? name = some fn → ')' ∉ name) (tok : Str) :
    (∃ r, parseFuncBody E tok = .ret r) ∧
      (∀ fn, E.funcs.get? (ruleName tok) = some fn → '(' ∈ TrimSpace tok →
        ')' ∈ TrimSpace tok → Index (TrimSpace tok) '(' < Index (TrimSpace tok) ')') ∧
      (∀ (name : Str) (args : List Str), numIn E name = ((args.length : Int), none) →
        (∀ fn, E.funcs.get? name = some fn → ∀ i, i < args.length → i + 2 < fn.In.length) ∧
          ∃ r, trim E name args = .ret r) := by
  have hbounds : ∀ (name : Str) (args : List Str),
      numIn E name = ((args.length : Int), none) →
      ∀ fn, E.funcs.get? name = some fn → args.length + 3 = fn.In.length := by
    intro name args hnum fn hfn
    rw [numIn_of_get? hfn] at hnum
    simp only [Prod.mk.injEq, and_true] at hnum
    omega
  refine ⟨?_, ?_, ?_⟩
  · by_cases hopen : '(' ∈ TrimSpace tok
    · by_cases hclose : ')' ∈ TrimSpace tok
      · obtain ⟨a0, b0, hab0, ha0⟩ := List.eq_append_cons_of_mem hopen
        cases hfn : E.funcs.get? (TrimSpace a0) with
        | none =>
          rw [parseFuncBody_open E tok a0 b0 hab0 ha0 hclose, numIn_of_none hfn]
          exact ⟨_, rfl⟩
        | some fn =>
          have hrn := ruleName_of_open tok a0 b0 hab0 ha0
          obtain ⟨a, b, e, hshape, ha1, ha2, hb, hname⟩ :=
            token_shape_of_name tok (by rw [hrn]; exact hnames _ fn hfn) hopen hclose
          rw [hrn] at hname
          rw [parseFuncBody_paren E tok a b e hshape ha1 ha2 hb, ← hname, numIn_of_get? hfn]
          simp only []
          split
          · exact ⟨_, rfl⟩
          · rename_i hnum
            have hnum2 : (fn.In.length : Int) - 3 = ((Split b ',').length : Int) := by
              simpa using hnum
            obtain ⟨r, hr⟩ := trim_no_panic E (TrimSpace a0) (Split b ',') (by
              intro fn2 hfn2
              rw [hfn] at hfn2
              simp only [Option.some.injEq] at hfn2
              subst hfn2
              omega)
            rw [hr]
            obtain ⟨ts, err⟩ := r
            cases err with
            | some e2 => exact ⟨_, rfl⟩
            | none => exact ⟨_, rfl⟩
      · have h1 : ¬ (Index (TrimSpace tok) '(' = -1) := by
          rw [Index_eq_neg_one_iff]; exact fun hn => hn hopen
        unfold parseFuncBody
        simp only [if_neg h1, Index_of_not_mem hclose, if_true]
        exact ⟨_, rfl⟩
    · rw [parseFuncBody_plain E tok hopen]
      cases hfn : E.funcs.get? (TrimSpace tok) with
      | none => rw [numIn_of_none hfn]; exact ⟨_, rfl⟩
      | some fn =>
        rw [numIn_of_get? hfn]
        simp only []
        split <;> exact ⟨_, rfl⟩
  · intro fn hfn hopen hclose
    obtain ⟨a, b, e, hshape, ha1, ha2, hb, _⟩ :=
      token_shape_of_name tok (hnames _ fn hfn) hopen hclose
    have hstart : Index (TrimSpace tok) '(' = (a.length : Int) := by
      rw [hshape, List.append_assoc]
      exact Index_append_cons a _ '(' ha1
    have hstop : Index (TrimSpace tok) ')' = ((a ++ '(' :: b).length : Int) := by
      have hn : ')' ∉ a ++ '(' :: b := by
        simp only [List.mem_append, List.mem_cons, not_or]
        exact ⟨ha2, by decide, hb⟩
      rw [hshape]
      exact Index_append_cons _ e ')' hn
    rw [hstart, hstop]
    simp only [List.length_append, List.length_cons, Nat.cast_add, Nat.cast_one]
    omega
  · intro name args hnum
    refine ⟨?_, ?_⟩
    · intro fn hfn i hi
      have := hbounds name args hnum fn hfn
      omega
    · apply trim_no_panic
      intro fn hfn
      have := hbounds name args hnum fn hfn
      omega

/-- Witness of C19: the example registry, and a token whose first `)` comes before its
first `(`. -/
theorem parseFunc_no_fault_witness :
    ∃ r, parseFuncBody exampleEnv ")Range(1,2)".toList = .ret r :=
  (parseFunc_no_fault exampleEnv
    (fun _ _ h => isIdentifier_not_mem
      (registered_isIdentifier (by decide : exampleFuncs.MethodNames) h) (by decide))
    ")Range(1,2)".toList).1

/-- C20: the result of `parseFunc` on a token with a `(` depends only on the text up
to its first `)`: for every text `p` with a `(` and no `)` and every text `s`,
`parseFunc` returns on `p ++ ")" ++ s` what it returns on `p ++ ")"`; what follows the
first `)` is ignored, not rejected. -/
theorem parseFunc_ignores_tail (E : Env) (p s : Str) (hopen : '(' ∈ p) (hclose : ')' ∉ p) :
    parseFunc E (p ++ ')' :: s) = parseFunc E (p ++ [')']) := by
  have hopen2 : '(' ∈ List.dropWhile isSpace p := mem_dropWhile_of_not (by decide) p hopen
  have hne : List.dropWhile isSpace p ≠ [] := List.ne_nil_of_mem hopen2
  have hclose2 : ')' ∉ List.dropWhile isSpace p :=
    fun hm => hclose (List.dropWhile_subset _ hm)
  obtain ⟨a, b, hab, ha⟩ := List.eq_append_cons_of_mem hopen2
  have ha2 : ')' ∉ a := fun hm => hclose2 (by rw [hab]; simp [hm])
  have hb : ')' ∉ b := fun hm => hclose2 (by rw [hab]; simp [hm])
  have h1 : TrimSpace (p ++ ')' :: s) = a ++ '(' :: b ++ ')' :: List.rdropWhile isSpace s := by
    rw [TrimSpace_append_cons_of_not p s ')' (by decide) hne, hab]
  have h2 : TrimSpace (p ++ [')']) = a ++ '(' :: b ++ ')' :: [] := by
    rw [TrimSpace_append_cons_of_not p [] ')' (by decide) hne, hab]
    rfl
  unfold parseFunc
  rw [parseFuncBody_paren E _ a b _ h1 ha ha2 hb, parseFuncBody_paren E _ a b _ h2 ha ha2 hb]

/-- Witness of C20: after the first `)` of `Match([a-z](b)+) junk`, the tail of the
pattern and the junk are ignored. -/
theorem parseFunc_ignores_tail_witness :
    parseFunc exampleEnv (" Match([a-z](b".toList ++ ')' :: "+) junk".toList) =
      parseFunc exampleEnv (" Match([a-z](b".toList ++ [')']) :=
  parseFunc_ignores_tail exampleEnv " Match([a-z](b".toList "+) junk".toList (by decide)
    (by decide)

end Validation
